import Mathlib

/-!
Verification of the move-search engine of a 6×6 crazyhouse-style chess
program (source: `src/ai.py`, with the state container in
`src/gamestate.py` and shared helpers in `src/utils.py`, `src/pieces.py`,
`src/config.py`).

The development is a shallow embedding:

* pure Python functions become Lean functions;
* mutation of a Python object is modelled by explicit state passing: a
  method call `x.m(...)` that may mutate its receiver becomes a Lean
  function returning the result together with the receiver's new value,
  and every `copy.deepcopy` / `pickle` round-trip becomes an independent
  value (so mutating a clone cannot affect the original, exactly as for
  genuinely disjoint Python objects);
* machine floats only ever hold exact small rationals and the two
  infinities in this program, so scores are modelled by an inductive
  `Score` of `-inf`, a rational, and `+inf`;
* the rules engine (`gamestate.py`'s move generation, move application
  and check detection) is outside the search engine per the design and is
  abstracted as a `Rules` structure mirroring the external contract; the
  memoisation wrapper `GameState.get_all_legal_moves` (which writes the
  `_all_legal_moves_cache` attribute) is embedded concretely because the
  search's observable effects depend on it.
-/

/-- Player colours, the values of `current_turn` ('w' / 'b'). -/
inductive Color where
  | w : Color
  | b : Color
deriving DecidableEq, Repr

/-- A move as produced by the move generator: either a normal board move
`((r1,c1),(r2,c2),promotion)` or a drop `('drop', pieceCode, (r,c))`.
The extra constructor `other` stands for a Python value of any other
shape, so that the defensive fall-through branches of `mvv_lva_score`
are representable. -/
inductive Move where
  | normal (start : Nat × Nat) (target : Nat × Nat) (promotion : Option Char) : Move
  | drop (pieceCode : String) (target : Nat × Nat) : Move
  | other : Move
deriving DecidableEq, Repr

/-- Search scores: Python floats restricted to the values this program
produces, namely exact rationals and the two infinities. -/
inductive Score where
  | ninf : Score
  | num (q : ℚ) : Score
  | pinf : Score
deriving DecidableEq, Repr

/-- Python `x <= y` on scores (IEEE comparisons on these values). -/
def Score.le : Score → Score → Bool
  | .ninf, _ => true
  | .num _, .ninf => false
  | .num a, .num b => decide (a ≤ b)
  | .num _, .pinf => true
  | .pinf, .pinf => true
  | .pinf, _ => false

/-- Python `x < y` on scores. -/
def Score.lt (a b : Score) : Bool := !(Score.le b a)

/-- Python `max(a, b)`: returns `b` exactly when `b > a`. -/
def Score.smax (a b : Score) : Score := if Score.lt a b then b else a

/-- Python `min(a, b)`: returns `b` exactly when `b < a`. -/
def Score.smin (a b : Score) : Score := if Score.lt b a then b else a

/-- Python `abs` on scores. -/
def Score.sabs : Score → Score
  | .ninf => .pinf
  | .num q => .num |q|
  | .pinf => .pinf

/-- Board size from `config.py`: `BOARD_SIZE = 6`. -/
def BOARD_SIZE : Nat := 6

/-- The empty-square marker from `pieces.py`: `EMPTY_SQUARE = '.'`. -/
def EMPTY_SQUARE : Char := '.'

/-- Board-piece values from `ai.py`:
`PIECE_VALUES = {'P': 100, 'N': 320, 'B': 330, 'R': 500, 'Q': 900, 'K': 20000}`,
read with `.get(key, 0)`. -/
def PIECE_VALUES (c : Char) : Int :=
  if c = 'P' then 100 else if c = 'N' then 320 else if c = 'B' then 330
  else if c = 'R' then 500 else if c = 'Q' then 900 else if c = 'K' then 20000
  else 0

/-- In-hand piece values from `ai.py`:
`HAND_PIECE_VALUES = {'P': 150, 'N': 400, 'B': 410, 'R': 650, 'Q': 1000}`,
read with `.get(key, 0)`. -/
def HAND_PIECE_VALUES (c : Char) : Int :=
  if c = 'P' then 150 else if c = 'N' then 400 else if c = 'B' then 410
  else if c = 'R' then 650 else if c = 'Q' then 1000
  else 0

/-- Centre squares from `ai.py`: `CENTER_SQUARES = [(2,2),(2,3),(3,2),(3,3)]`. -/
def CENTER_SQUARES : List (Nat × Nat) := [(2, 2), (2, 3), (3, 2), (3, 3)]

/-- Bonus constants from `ai.py` (lines 36-41). -/
def CENTER_BONUS : Int := 15

/-- King-safety bonus from `ai.py`. -/
def KING_SAFETY_BONUS : Int := 8

/-- King-attack-zone bonus from `ai.py`. -/
def ATTACK_KING_ZONE_BONUS : Int := 20

/-- Pawn-structure bonus from `ai.py`. -/
def PAWN_STRUCTURE_BONUS : Int := 5

/-- Drop-threat bonus from `ai.py`. -/
def DROP_THREAT_BONUS : Int := 25

/-- Game-phase markers from `ai.py`. -/
def OPENING_PHASE : Nat := 0

/-- Endgame phase marker from `ai.py`. -/
def ENDGAME_PHASE : Nat := 1

/-- Mate sentinel from `ai.py`: `CHECKMATE_SCORE = 1000000`. -/
def CHECKMATE_SCORE : Int := 1000000

/-- Stalemate score from `ai.py`: `STALEMATE_SCORE = 0`. -/
def STALEMATE_SCORE : Int := 0

/-- Quiescence budget from `ai.py`: `MAX_QUIESCENCE_DEPTH = 4`. -/
def MAX_QUIESCENCE_DEPTH : Nat := 4

/-- Knight move offsets from `pieces.py`. -/
def KNIGHT_MOVES : List (Int × Int) :=
  [(1, 2), (1, -2), (-1, 2), (-1, -2), (2, 1), (2, -1), (-2, 1), (-2, -1)]

/-- White promotion choices from `pieces.py`:
`PROMOTION_PIECES_WHITE_STR = ['R', 'N', 'B']`. -/
def PROMOTION_PIECES_WHITE_STR : List Char := ['R', 'N', 'B']

/-- Black promotion choices from `pieces.py`:
`PROMOTION_PIECES_BLACK_STR = ['r', 'n', 'b']`. -/
def PROMOTION_PIECES_BLACK_STR : List Char := ['r', 'n', 'b']

/-- The state container fields of `gamestate.GameState` that `ai.py`
reads, with the hands as association lists in dictionary iteration
order and the legal-move memo `_all_legal_moves_cache`. -/
structure GameState where
  board : List (List Char)
  handsW : List (Char × Nat)
  handsB : List (Char × Nat)
  current_turn : Color
  checkmate : Bool
  stalemate : Bool
  king_posW : Option (Nat × Nat)
  king_posB : Option (Nat × Nat)
  needs_promotion_choice : Bool
  en_passant_target : Option (Nat × Nat)
  can_castle_white_kingside : Bool
  can_castle_white_queenside : Bool
  can_castle_black_kingside : Bool
  can_castle_black_queenside : Bool
  legalCache : Option (List Move)
deriving DecidableEq, Repr

/-- Reading `gamestate.board[r][c]` (in-range in all executed paths;
out-of-range reads default to the empty square). -/
def boardGet (b : List (List Char)) (r c : Nat) : Char :=
  ((b.getD r []).getD c EMPTY_SQUARE)

/-- The hand dictionary of a colour: `gamestate.hands.get(color, {})`. -/
def handsOf (s : GameState) (c : Color) : List (Char × Nat) :=
  match c with
  | .w => s.handsW
  | .b => s.handsB

/-- A game state with its legal-move memo field erased; two states equal
up to `eraseMemo` agree on every semantically observable field. -/
def eraseMemo (s : GameState) : GameState := { s with legalCache := none }

/-- The external rules-engine contract consumed by the search engine
(spec section 6): legal-move generation, in-place move application
(modelled as value transformation of the receiver together with the
`bool` result), promotion completion and check detection.  These live in
`gamestate.py`, which the design treats as an external collaborator. -/
structure Rules where
  legalMoves : GameState → List Move
  makeMove : GameState → Move → Bool × GameState
  completePromotion : GameState → Char → Bool × GameState
  isInCheck : GameState → Color → Bool

/-- `GameState.get_all_legal_moves` (gamestate.py lines 554-598): returns
the memoised list when `_all_legal_moves_cache` is set; otherwise
returns `[]` for a promotion-pending state (memoising `[]`), else
computes the legal moves (abstracted as `R.legalMoves`) and memoises
them on the receiver.  The returned state is the receiver after the
call: this is the one mutation the wrapper performs. -/
def getAllLegalMoves (R : Rules) (s : GameState) : List Move × GameState :=
  match s.legalCache with
  | some l => (l, s)
  | none =>
    if s.needs_promotion_choice then
      ([], { s with legalCache := some [] })
    else
      let l := R.legalMoves s
      (l, { s with legalCache := some l })

/-- The legal-move list as the code observes it at a state. -/
def legalMovesOf (R : Rules) (s : GameState) : List Move :=
  (getAllLegalMoves R s).1

/-- Helper `get_piece_color` from `utils.py`: `None` for the empty
square, white for uppercase, black otherwise. -/
def get_piece_color (c : Char) : Option Color :=
  if c = EMPTY_SQUARE then none
  else if c.isUpper then some .w else some .b

/-- Helper `is_on_board` from `utils.py`. -/
def is_on_board (r c : Int) : Bool :=
  decide (0 ≤ r) && decide (r < (BOARD_SIZE : Int)) &&
  decide (0 ≤ c) && decide (c < (BOARD_SIZE : Int))

/-- Modelled from the spec: `cheapClone(state) -> state` (section 6), an
independent copy suitable for branch simulation that must not alias
mutable substructures with the source.  The method
`GameState.fast_copy_for_simulation` is called at `ai.py` lines 1080,
1101, 1146 and 1170 but is defined nowhere under `src/`; as a pure value
copy it is exactly an independent clone. -/
def fast_copy_for_simulation (s : GameState) : GameState := s

/-- 2^32, the word modulus of SHA-256. -/
def M32 : Nat := 4294967296

/-- Right rotation of a 32-bit word. -/
def rotr (n x : Nat) : Nat := (x / 2 ^ n + x % 2 ^ n * 2 ^ (32 - n)) % M32

/-- Logical right shift of a 32-bit word. -/
def shr (n x : Nat) : Nat := x / 2 ^ n

/-- Bitwise complement of a 32-bit word. -/
def not32 (x : Nat) : Nat := 4294967295 - x

/-- SHA-256 choice function. -/
def shaCh (x y z : Nat) : Nat := (x &&& y) ^^^ (not32 x &&& z)

/-- SHA-256 majority function. -/
def shaMaj (x y z : Nat) : Nat := (x &&& y) ^^^ (x &&& z) ^^^ (y &&& z)

/-- SHA-256 big sigma 0. -/
def bigS0 (x : Nat) : Nat := rotr 2 x ^^^ rotr 13 x ^^^ rotr 22 x

/-- SHA-256 big sigma 1. -/
def bigS1 (x : Nat) : Nat := rotr 6 x ^^^ rotr 11 x ^^^ rotr 25 x

/-- SHA-256 small sigma 0. -/
def smallS0 (x : Nat) : Nat := rotr 7 x ^^^ rotr 18 x ^^^ shr 3 x

/-- SHA-256 small sigma 1. -/
def smallS1 (x : Nat) : Nat := rotr 17 x ^^^ rotr 19 x ^^^ shr 10 x

/-- SHA-256 round constants (FIPS 180-4, written in decimal). -/
def shaK : List Nat :=
  [1116352408, 1899447441, 3049323471, 3921009573, 961987163,
   1508970993, 2453635748, 2870763221, 3624381080, 310598401,
   607225278, 1426881987, 1925078388, 2162078206, 2614888103,
   3248222580, 3835390401, 4022224774, 264347078, 604807628,
   770255983, 1249150122, 1555081692, 1996064986, 2554220882,
   2821834349, 2952996808, 3210313671, 3336571891, 3584528711,
   113926993, 338241895, 666307205, 773529912, 1294757372,
   1396182291, 1695183700, 1986661051, 2177026350, 2456956037,
   2730485921, 2820302411, 3259730800, 3345764771, 3516065817,
   3600352804, 4094571909, 275423344, 430227734, 506948616,
   659060556, 883997877, 958139571, 1322822218, 1537002063,
   1747873779, 1955562222, 2024104815, 2227730452, 2361852424,
   2428436474, 2756734187, 3204031479, 3329325298]

/-- SHA-256 message padding of a byte list. -/
def sha256pad (msg : List Nat) : List Nat :=
  let L := msg.length
  let k := (55 + 64 - L % 64) % 64
  let bitLen := 8 * L
  msg ++ [128] ++ List.replicate k 0 ++
    [bitLen / 2 ^ 56 % 256, bitLen / 2 ^ 48 % 256, bitLen / 2 ^ 40 % 256,
     bitLen / 2 ^ 32 % 256, bitLen / 2 ^ 24 % 256, bitLen / 2 ^ 16 % 256,
     bitLen / 2 ^ 8 % 256, bitLen % 256]

/-- Split a padded byte list into 64-byte blocks. -/
def chunks64 (l : List Nat) : List (List Nat) :=
  (List.range (l.length / 64)).map (fun i => ((l.drop (64 * i)).take 64))

/-- The 16 big-endian 32-bit words of one 64-byte block. -/
def blockWords (b : List Nat) : List Nat :=
  (List.range 16).map (fun i =>
    b.getD (4 * i) 0 * 2 ^ 24 + b.getD (4 * i + 1) 0 * 2 ^ 16 +
    b.getD (4 * i + 2) 0 * 2 ^ 8 + b.getD (4 * i + 3) 0)

/-- Extend 16 message words to the 64-word SHA-256 schedule. -/
def sha256schedule (w16 : List Nat) : List Nat :=
  (List.range 48).foldl
    (fun w _ =>
      w ++ [(smallS1 (w.getD (w.length - 2) 0) + w.getD (w.length - 7) 0 +
             smallS0 (w.getD (w.length - 15) 0) + w.getD (w.length - 16) 0) % M32])
    w16

/-- The SHA-256 working state: eight 32-bit words. -/
abbrev ShaState := Nat × Nat × Nat × Nat × Nat × Nat × Nat × Nat

/-- One SHA-256 round. -/
def shaRound (st : ShaState) (kw : Nat × Nat) : ShaState :=
  match st, kw with
  | (a, b, c, d, e, f, g, h), (k, wi) =>
    let t1 := (h + bigS1 e + shaCh e f g + k + wi) % M32
    let t2 := (bigS0 a + shaMaj a b c) % M32
    ((t1 + t2) % M32, a, b, c, (d + t1) % M32, e, f, g)

/-- Compress one 64-byte block into the hash state. -/
def sha256compress (st : ShaState) (block : List Nat) : ShaState :=
  let w := sha256schedule (blockWords block)
  match st, (shaK.zip w).foldl shaRound st with
  | (a0, b0, c0, d0, e0, f0, g0, h0), (a, b, c, d, e, f, g, h) =>
    ((a0 + a) % M32, (b0 + b) % M32, (c0 + c) % M32, (d0 + d) % M32,
     (e0 + e) % M32, (f0 + f) % M32, (g0 + g) % M32, (h0 + h) % M32)

/-- SHA-256 of a byte list, as the final eight-word state. -/
def sha256run (msg : List Nat) : ShaState :=
  (chunks64 (sha256pad msg)).foldl sha256compress
    (1779033703, 3144134277, 1013904242, 2773480762,
     1359893119, 2600822924, 528734635, 1541459225)

/-- Lower-case hexadecimal digit. -/
def hexDigit (n : Nat) : Char := if n < 10 then Char.ofNat (48 + n) else Char.ofNat (87 + n)

/-- The eight hex digits of a 32-bit word, most significant first. -/
def toHex8 (x : Nat) : List Char :=
  [hexDigit (x / 16 ^ 7 % 16), hexDigit (x / 16 ^ 6 % 16), hexDigit (x / 16 ^ 5 % 16),
   hexDigit (x / 16 ^ 4 % 16), hexDigit (x / 16 ^ 3 % 16), hexDigit (x / 16 ^ 2 % 16),
   hexDigit (x / 16 % 16), hexDigit (x % 16)]

/-- The hex digest of SHA-256, as `hashlib.sha256(...).hexdigest()`. -/
def sha256hex (msg : List Nat) : String :=
  match sha256run msg with
  | (a, b, c, d, e, f, g, h) =>
    String.mk (toHex8 a ++ toHex8 b ++ toHex8 c ++ toHex8 d ++
               toHex8 e ++ toHex8 f ++ toHex8 g ++ toHex8 h)

/-- UTF-8 bytes of a string, as Python `state_string.encode('utf-8')`. -/
def strBytes (s : String) : List Nat := s.toUTF8.toList.map UInt8.toNat

/-- Hand-entry comparison used to model Python `sorted(hand.items())`:
lexicographic on (piece character, count). -/
def handLe (a b : Char × Nat) : Prop :=
  a.1.toNat < b.1.toNat ∨ (a.1.toNat = b.1.toNat ∧ a.2 ≤ b.2)

instance : DecidableRel handLe := fun a b => by unfold handLe; infer_instance

instance : IsTotal (Char × Nat) handLe where
  total a b := by
    unfold handLe
    rcases Nat.lt_trichotomy a.1.toNat b.1.toNat with h | h | h
    · exact Or.inl (Or.inl h)
    · rcases Nat.le_total a.2 b.2 with h2 | h2
      · exact Or.inl (Or.inr ⟨h, h2⟩)
      · exact Or.inr (Or.inr ⟨h.symm, h2⟩)
    · exact Or.inr (Or.inl h)

instance : IsTrans (Char × Nat) handLe where
  trans a b c hab hbc := by
    unfold handLe at *
    rcases hab with h1 | ⟨h1, h1'⟩ <;> rcases hbc with h2 | ⟨h2, h2'⟩
    · exact Or.inl (h1.trans h2)
    · exact Or.inl (h2 ▸ h1)
    · exact Or.inl (h1 ▸ h2)
    · exact Or.inr ⟨h1.trans h2, h1'.trans h2'⟩

instance : IsAntisymm (Char × Nat) handLe where
  antisymm a b hab hba := by
    unfold handLe at *
    have hc : a.1.toNat = b.1.toNat := by omega
    have hn : a.2 = b.2 := by omega
    have : a.1 = b.1 := Char.eq_of_val_eq (UInt32.eq_of_toBitVec_eq (BitVec.eq_of_toNat_eq hc))
    exact Prod.ext this hn

/-- Python `sorted(hand.items())`: since a sorted permutation is unique
for an antisymmetric total order, any correct sort models it. -/
def sortHands (l : List (Char × Nat)) : List (Char × Nat) :=
  List.insertionSort handLe l

/-- Serialisation of one sorted hand, mirroring the tuple
`tuple(sorted(hands.get(color, {}).items()))` inside `repr(state_tuple)`
(delimiters differ from CPython `repr`, the content does not). -/
def handStr (l : List (Char × Nat)) : String :=
  String.intercalate "," ((sortHands l).map (fun p => String.mk [p.1] ++ ":" ++ toString p.2))

/-- Serialisation of the board rows, mirroring
`tuple(''.join(row) for row in gamestate.board)`. -/
def boardStr (b : List (List Char)) : String :=
  String.intercalate "/" (b.map (fun row => String.mk row))

/-- Serialisation of the en-passant field. -/
def epStr : Option (Nat × Nat) → String
  | none => "-"
  | some (r, c) => toString r ++ "." ++ toString c

/-- Serialisation of one castling flag. -/
def boolStr (b : Bool) : String := if b then "T" else "F"

/-- The canonical state string hashed by `get_position_hash`, mirroring
`repr((board_tuple, white_hand_tuple, black_hand_tuple, turn, en_passant,
castling))` from `ai.py` lines 179-199: full board contents, both hands
sorted, side to move, en-passant target and the four castling flags, and
nothing else. -/
def stateString (s : GameState) : String :=
  String.intercalate "|"
    [boardStr s.board, handStr s.handsW, handStr s.handsB,
     (match s.current_turn with | .w => "w" | .b => "b"),
     epStr s.en_passant_target,
     boolStr s.can_castle_white_kingside ++ boolStr s.can_castle_white_queenside ++
     boolStr s.can_castle_black_kingside ++ boolStr s.can_castle_black_queenside]

/-- `get_position_hash` (ai.py lines 172-211): the SHA-256 hex digest of
the canonical state string; if the required attributes cannot be read
(modelled by the `none` raw state) the `try/except` yields the sentinel
string `"error_hash"` instead of raising. -/
def get_position_hash : Option GameState → String
  | some s => sha256hex (strBytes (stateString s))
  | none => "error_hash"

/-- The hash of a well-formed state. -/
def hashOk (s : GameState) : String := get_position_hash (some s)

/-- Sum of an integer-valued function over `range n`. -/
def isum (n : Nat) (f : Nat → Int) : Int := ((List.range n).map f).sum

/-- Sum of a rational-valued function over `range n`. -/
def qsum (n : Nat) (f : Nat → ℚ) : ℚ := ((List.range n).map f).sum

/-- Sum of a rational-valued function over a list. -/
def qsumL {α : Type} (l : List α) (f : α → ℚ) : ℚ := (l.map f).sum

/-- Membership of a square in the centre list. -/
def inCenter (r c : Nat) : Bool := decide ((r, c) ∈ CENTER_SQUARES)

/-- One side's material in the stalemate branch of `evaluate_position`
(ai.py lines 225-237): board pieces at `PIECE_VALUES` plus hand pieces
at `HAND_PIECE_VALUES` times their counts. -/
def stalemateMaterial (s : GameState) (col : Color) : Int :=
  isum BOARD_SIZE (fun r => isum BOARD_SIZE (fun c =>
    let piece := boardGet s.board r c
    if piece ≠ EMPTY_SQUARE ∧ get_piece_color piece = some col then
      PIECE_VALUES piece.toUpper
    else 0)) +
  ((handsOf s col).map (fun p => HAND_PIECE_VALUES p.1.toUpper * (p.2 : Int))).sum

/-- `material_diff = white_material - black_material` in the stalemate
branch of `evaluate_position` (ai.py line 239). -/
def material_diff (s : GameState) : Int :=
  stalemateMaterial s .w - stalemateMaterial s .b

/-- Row of a king position with the `-1` default of ai.py line 250-251. -/
def kingR (p : Option (Nat × Nat)) : Int :=
  match p with
  | some (r, _) => (r : Int)
  | none => -1

/-- Column of a king position with the `-1` default. -/
def kingC (p : Option (Nat × Nat)) : Int :=
  match p with
  | some (_, c) => (c : Int)
  | none => -1

/-- Material, centre and king-safety contribution of one square in the
main loop of `evaluate_position` (ai.py lines 257-281), signed for the
piece's colour. -/
def evalSquare (s : GameState) (r c : Nat) : ℚ :=
  let piece := boardGet s.board r c
  if piece = EMPTY_SQUARE then 0
  else
    let pt := piece.toUpper
    let value : Int := PIECE_VALUES pt
    if get_piece_color piece = some .w then
      (value : ℚ) + (if inCenter r c then (CENTER_BONUS : ℚ) else 0) +
      (if kingR s.king_posW ≠ -1 ∧ pt ≠ 'K' ∧
          max (((r : Int) - kingR s.king_posW).natAbs) (((c : Int) - kingC s.king_posW).natAbs) ≤ 2
       then (KING_SAFETY_BONUS : ℚ) else 0)
    else
      -(value : ℚ) - (if inCenter r c then (CENTER_BONUS : ℚ) else 0) -
      (if kingR s.king_posB ≠ -1 ∧ pt ≠ 'K' ∧
          max (((r : Int) - kingR s.king_posB).natAbs) (((c : Int) - kingC s.king_posB).natAbs) ≤ 2
       then (KING_SAFETY_BONUS : ℚ) else 0)

/-- `total_material` of `evaluate_position` (ai.py lines 264, 289, 292):
board piece values plus board-equivalent values of the hand pieces. -/
def totalMaterial (s : GameState) : Int :=
  isum BOARD_SIZE (fun r => isum BOARD_SIZE (fun c =>
    let piece := boardGet s.board r c
    if piece = EMPTY_SQUARE then 0 else PIECE_VALUES piece.toUpper)) +
  ((s.handsW.map (fun p => PIECE_VALUES p.1.toUpper * (p.2 : Int))).sum) +
  ((s.handsB.map (fun p => PIECE_VALUES p.1.toUpper * (p.2 : Int))).sum)

/-- Hand-material and drop-threat contribution (ai.py lines 284-296). -/
def evalHands (s : GameState) : ℚ :=
  ((s.handsW.map (fun p => ((HAND_PIECE_VALUES p.1.toUpper * (p.2 : Int) : Int) : ℚ))).sum) -
  ((s.handsB.map (fun p => ((HAND_PIECE_VALUES p.1.toUpper * (p.2 : Int) : Int) : ℚ))).sum) +
  (((s.handsW.map (·.2)).sum : Nat) : ℚ) * (DROP_THREAT_BONUS : ℚ) -
  (((s.handsB.map (·.2)).sum : Nat) : ℚ) * (DROP_THREAT_BONUS : ℚ)

/-- Game phase (ai.py line 300): endgame when
`total_material < 2 * PIECE_VALUES['R'] + 2 * PIECE_VALUES['K']`. -/
def gamePhase (s : GameState) : Nat :=
  if totalMaterial s < 2 * PIECE_VALUES 'R' + 2 * PIECE_VALUES 'K' then ENDGAME_PHASE
  else OPENING_PHASE

/-- Squares holding a given piece character, in row-major order as the
pawn lists of `evaluate_position` collect them. -/
def coordsWhere (s : GameState) (ch : Char) : List (Nat × Nat) :=
  (List.range BOARD_SIZE).flatMap (fun r =>
    (List.range BOARD_SIZE).filterMap (fun c =>
      if boardGet s.board r c = ch then some (r, c) else none))

/-- White pawn-structure and passed-pawn contribution (ai.py
lines 308-318). -/
def evalPawnsW (s : GameState) : ℚ :=
  qsumL (coordsWhere s 'P') (fun p =>
    let r := p.1
    let c := p.2
    (if c > 0 ∧ boardGet s.board r (c - 1) = 'P' then (PAWN_STRUCTURE_BONUS : ℚ) else 0) +
    (if c < BOARD_SIZE - 1 ∧ boardGet s.board r (c + 1) = 'P' then (PAWN_STRUCTURE_BONUS : ℚ) else 0) +
    (if (List.range r).all (fun sr =>
          !(decide (boardGet s.board sr c = 'p')) &&
          !(decide (c > 0) && decide (boardGet s.board sr (c - 1) = 'p')) &&
          !(decide (c < BOARD_SIZE - 1) && decide (boardGet s.board sr (c + 1) = 'p')))
     then (((BOARD_SIZE : Int) - 1 - (r : Int)) * 10 : Int) else 0))

/-- Black pawn-structure and passed-pawn contribution (ai.py
lines 320-328). -/
def evalPawnsB (s : GameState) : ℚ :=
  qsumL (coordsWhere s 'p') (fun p =>
    let r := p.1
    let c := p.2
    (if c > 0 ∧ boardGet s.board r (c - 1) = 'p' then -(PAWN_STRUCTURE_BONUS : ℚ) else 0) +
    (if c < BOARD_SIZE - 1 ∧ boardGet s.board r (c + 1) = 'p' then -(PAWN_STRUCTURE_BONUS : ℚ) else 0) +
    (if (List.range' (r + 1) (BOARD_SIZE - (r + 1))).all (fun sr =>
          !(decide (boardGet s.board sr c = 'P')) &&
          !(decide (c > 0) && decide (boardGet s.board sr (c - 1) = 'P')) &&
          !(decide (c < BOARD_SIZE - 1) && decide (boardGet s.board sr (c + 1) = 'P')))
     then -(((r : Int) * 10 : Int) : ℚ) else 0))

/-- King placement term by phase (ai.py lines 331-338). -/
def evalKingPhase (s : GameState) : ℚ :=
  let wk := (kingR s.king_posW, kingC s.king_posW)
  let bk := (kingR s.king_posB, kingC s.king_posB)
  let ctr := CENTER_SQUARES.map (fun p => ((p.1 : Int), (p.2 : Int)))
  if gamePhase s = OPENING_PHASE then
    (if wk ∈ ctr then (-20 : ℚ) else 0) + (if bk ∈ ctr then (20 : ℚ) else 0)
  else
    (if wk ∈ ctr then (10 : ℚ) else 0) + (if bk ∈ ctr then (-10 : ℚ) else 0)

/-- Development term in the opening phase (ai.py lines 341-356). -/
def evalDevelopment (s : GameState) : ℚ :=
  if gamePhase s = OPENING_PHASE then
    -(((((List.range BOARD_SIZE).filter
          (fun c => decide (boardGet s.board (BOARD_SIZE - 1) c ∈ (['N', 'B', 'R'] : List Char)))).length : Int) * 15 : Int) : ℚ) +
    ((((List.range BOARD_SIZE).filter
          (fun c => decide (boardGet s.board 0 c ∈ (['n', 'b', 'r'] : List Char)))).length : Int) * 15 : ℚ)
  else 0

/-- The eight neighbour offsets scanned around a king
(`for dr in [-1,0,1]: for dc in [-1,0,1]: if dr==0 and dc==0: continue`). -/
def kingZoneOffsets : List (Int × Int) :=
  [(-1, -1), (-1, 0), (-1, 1), (0, -1), (0, 1), (1, -1), (1, 0), (1, 1)]

/-- Attack count of one side on the squares around the other side's king
(ai.py lines 360-412): knights count 1, bishop/queen diagonal alignments
and rook/queen straight alignments count one half. -/
def zoneAttackers (s : GameState) (attacker : Color) (kr kc : Int) : ℚ :=
  (kingZoneOffsets.map (fun d =>
    let check_r := kr + d.1
    let check_c := kc + d.2
    if is_on_board check_r check_c then
      qsum BOARD_SIZE (fun r => qsum BOARD_SIZE (fun c =>
        let piece := boardGet s.board r c
        if piece ≠ EMPTY_SQUARE ∧ get_piece_color piece = some attacker then
          let pt := piece.toUpper
          if pt = 'N' then
            (if (check_r - (r : Int), check_c - (c : Int)) ∈ KNIGHT_MOVES then 1 else 0)
          else if pt ∈ (['B', 'Q'] : List Char) then
            (if (check_r - (r : Int)).natAbs = (check_c - (c : Int)).natAbs ∧ check_r ≠ (r : Int)
             then (1 : ℚ) / 2 else 0)
          else if pt ∈ (['R', 'Q'] : List Char) then
            (if (check_r = (r : Int) ∨ check_c = (c : Int)) ∧
                ¬(check_r = (r : Int) ∧ check_c = (c : Int))
             then (1 : ℚ) / 2 else 0)
          else 0
        else 0))
    else 0)).sum

/-- King-attack-zone term (ai.py lines 360-412), active only when both
kings are on the board. -/
def evalAttack (s : GameState) : ℚ :=
  if kingR s.king_posW ≠ -1 ∧ kingR s.king_posB ≠ -1 then
    zoneAttackers s .w (kingR s.king_posB) (kingC s.king_posB) * (ATTACK_KING_ZONE_BONUS : ℚ) -
    zoneAttackers s .b (kingR s.king_posW) (kingC s.king_posW) * (ATTACK_KING_ZONE_BONUS : ℚ)
  else 0

/-- The non-terminal score of `evaluate_position` (ai.py lines 247-420):
material and positional terms, hand terms, pawn structure, king phase,
development, king attack and tempo. -/
def evalMain (s : GameState) : ℚ :=
  qsum BOARD_SIZE (fun r => qsum BOARD_SIZE (fun c => evalSquare s r c)) +
  evalHands s + evalPawnsW s + evalPawnsB s + evalKingPhase s +
  evalDevelopment s + evalAttack s +
  (if s.current_turn = .w then (10 : ℚ) else -10)

/-- `evaluate_position` (ai.py lines 215-420).  Checkmate returns the
infinity against the side to move; stalemate returns the
material-adjusted score of lines 223-245; otherwise the heuristic sum. -/
def evaluate_position (s : GameState) : Score :=
  if s.checkmate then (if s.current_turn = .w then .ninf else .pinf)
  else if s.stalemate then
    (if s.current_turn = .w ∧ material_diff s > 100 then .num (-10000)
     else if s.current_turn = .b ∧ material_diff s < -100 then .num 10000
     else .num 0)
  else .num (evalMain s)

/-- `get_opposite_color` from `utils.py`. -/
def get_opposite_color (c : Color) : Color :=
  match c with
  | .w => .b
  | .b => .w

/-- `gamestate.king_pos.get(color)`. -/
def kingPosOf (s : GameState) (c : Color) : Option (Nat × Nat) :=
  match c with
  | .w => s.king_posW
  | .b => s.king_posB

/-- `history_scores.get(repr(move), 0)`; the table is keyed by the
move's `repr`, which is injective on move values, so the model keys it
by the move itself. -/
def historyGet (hist : List (Move × Int)) (m : Move) : Int :=
  (hist.lookup m).getD 0

/-- `mvv_lva_score` (ai.py lines 509-598): the move-ordering heuristic.
Normal moves score captures by MVV-LVA plus promotion, king-zone,
centre, development and history bonuses; an empty source square scores
`0`.  Drops need a 2-character piece code, score by hand value, centre
and king proximity plus history, and otherwise score `0`.  Any other
shape scores `0`. -/
def mvv_lva_score (hist : List (Move × Int)) (gs : GameState) (move : Move) : Int :=
  match move with
  | .normal (start_r, start_c) (end_r, end_c) promotion =>
    let aggressor := boardGet gs.board start_r start_c
    if aggressor = EMPTY_SQUARE then 0
    else
      let aggressor_value := PIECE_VALUES aggressor.toUpper
      let piece_color := if aggressor.isUpper then Color.w else Color.b
      let victim := boardGet gs.board end_r end_c
      let capScore : Int :=
        if victim ≠ EMPTY_SQUARE then PIECE_VALUES victim.toUpper * 10 - aggressor_value else 0
      let promScore : Int := if promotion.isSome then 900 else 0
      let checkScore : Int :=
        match kingPosOf gs (get_opposite_color piece_color) with
        | some (ek_r, ek_c) =>
          if max (((end_r : Int) - (ek_r : Int)).natAbs) (((end_c : Int) - (ek_c : Int)).natAbs) ≤ 2
          then 500 else 0
        | none => 0
      let centerScore : Int := if inCenter end_r end_c then 30 else 0
      let devScore : Int :=
        if piece_color = .w ∧ start_r = 5 ∧ end_r < 5 then 20
        else if piece_color = .b ∧ start_r = 0 ∧ end_r > 0 then 20
        else 0
      capScore + promScore + checkScore + centerScore + devScore + historyGet hist move
  | .drop pieceCode (drop_r, drop_c) =>
    match pieceCode.toList with
    | [c0, c1] =>
      let piece_type := c1.toUpper
      let base1 : Int := HAND_PIECE_VALUES piece_type / 10
      let base2 : Int := if inCenter drop_r drop_c then 50 else 0
      let base3 : Int :=
        match (if c0 = 'w' then gs.king_posB else gs.king_posW) with
        | some (ek_r, ek_c) =>
          if max (((drop_r : Int) - (ek_r : Int)).natAbs) (((drop_c : Int) - (ek_c : Int)).natAbs) ≤ 2
          then 100 else 0
        | none => 0
      base1 + base2 + base3 + historyGet hist move
    | _ => 0
  | .other => 0

/-- `get_noisy_moves` (ai.py lines 424-442): captures and promotions
among the legal moves; drops and malformed values are skipped. -/
def get_noisy_moves (R : Rules) (s : GameState) : List Move × GameState :=
  let p := getAllLegalMoves R s
  (p.1.filter (fun m =>
    match m with
    | .normal _ (end_r, end_c) promotion =>
      decide (boardGet p.2.board end_r end_c ≠ EMPTY_SQUARE) || promotion.isSome
    | .drop _ _ => false
    | .other => false), p.2)

/-- Transposition-table bound flags. -/
inductive TTFlag where
  | EXACT : TTFlag
  | LOWERBOUND : TTFlag
  | UPPERBOUND : TTFlag
deriving DecidableEq, Repr

/-- A transposition-table entry:
`dict(depth=..., score=..., flag=..., best_move=...)`. -/
structure TTEntry where
  depth : Nat
  score : Score
  flag : TTFlag
  best_move : Option Move
deriving DecidableEq, Repr

/-- The process-wide mutable tables of `ai.py`: the transposition table
`tt`, the killer lists `killer_moves` and the history scores
`history_scores`, threaded through the search explicitly. -/
structure Tables where
  tt : List (String × TTEntry)
  killers : List (Nat × List Move)
  history : List (Move × Int)
deriving DecidableEq, Repr

/-- `tt.get(pos_hash)`. -/
def ttGet (tbl : Tables) (h : String) : Option TTEntry := tbl.tt.lookup h

/-- `killer_moves.get(depth, [])`. -/
def killersGet (tbl : Tables) (d : Nat) : List Move := (tbl.killers.lookup d).getD []

/-- Outcome of the transposition-table probe: an immediate return or a
(possibly tightened) window to continue with. -/
inductive ProbeResult where
  | ret (score : Score) (best : Option Move) : ProbeResult
  | go (alpha beta : Score) : ProbeResult
deriving DecidableEq, Repr

/-- The TT probe of `minimax_alpha_beta` (ai.py lines 621-629): an entry
is consulted only when its stored depth is at least the requested depth;
`EXACT` returns immediately, `LOWERBOUND` raises alpha, `UPPERBOUND`
lowers beta, and if the tightened window closes the entry is returned. -/
def abProbe (entry : Option TTEntry) (depth : Nat) (alpha beta : Score) : ProbeResult :=
  match entry with
  | none => .go alpha beta
  | some e =>
    if e.depth ≥ depth then
      match e.flag with
      | .EXACT => .ret e.score e.best_move
      | .LOWERBOUND =>
        let a := Score.smax alpha e.score
        if Score.le beta a then .ret e.score e.best_move else .go a beta
      | .UPPERBOUND =>
        let b := Score.smin beta e.score
        if Score.le b alpha then .ret e.score e.best_move else .go alpha b
    else .go alpha beta

/-- `move_order_score` (ai.py lines 635-641): the TT best move first,
then killer moves, then MVV-LVA with history. -/
def move_order_score (tbl : Tables) (gs : GameState) (depth : Nat)
    (tt_best : Option Move) (m : Move) : Int :=
  if tt_best = some m then 1000000
  else
    let killers := killersGet tbl depth
    if m ∈ killers then 50000 + (100 - (killers.indexOf m : Int))
    else mvv_lva_score tbl.history gs m

/-- Move-ordering relation: `a` may precede `b` when its ordering score
is at least as large (descending sort, `reverse=True`). -/
def moveOrderRel (tbl : Tables) (gs : GameState) (depth : Nat) (tt_best : Option Move)
    (a b : Move) : Prop :=
  move_order_score tbl gs depth tt_best b ≤ move_order_score tbl gs depth tt_best a

instance (tbl : Tables) (gs : GameState) (depth : Nat) (tt_best : Option Move) :
    DecidableRel (moveOrderRel tbl gs depth tt_best) := fun a b => by
  unfold moveOrderRel; infer_instance

/-- `legal_moves.sort(key=move_order_score, reverse=True)` (ai.py line
643), modelled by a sort under the descending ordering relation. -/
def orderedMoves (tbl : Tables) (gs : GameState) (depth : Nat) (tt_best : Option Move)
    (legal : List Move) : List Move :=
  List.insertionSort (moveOrderRel tbl gs depth tt_best) legal

/-- MVV-LVA ordering relation for quiescence noisy-move sorting. -/
def mvvRel (hist : List (Move × Int)) (gs : GameState) (a b : Move) : Prop :=
  mvv_lva_score hist gs b ≤ mvv_lva_score hist gs a

instance (hist : List (Move × Int)) (gs : GameState) : DecidableRel (mvvRel hist gs) :=
  fun a b => by unfold mvvRel; infer_instance

/-- `noisy_moves.sort(key=mvv_lva_score, reverse=True)` (ai.py lines
467, 490). -/
def sortNoisy (hist : List (Move × Int)) (gs : GameState) (l : List Move) : List Move :=
  List.insertionSort (mvvRel hist gs) l

/-- White auto-promotion after a search move (ai.py lines 473-476,
653-656): promotes to queen if available, else rook; a failed
completion makes the branch be skipped (`none`). -/
def autoPromoteW (R : Rules) (s : GameState) : Option GameState :=
  if s.needs_promotion_choice then
    let bp := if 'Q' ∉ PROMOTION_PIECES_WHITE_STR ∧ 'R' ∈ PROMOTION_PIECES_WHITE_STR then 'R' else 'Q'
    match R.completePromotion s bp with
    | (true, s1) => some s1
    | (false, _) => none
  else some s

/-- Black auto-promotion (ai.py lines 496-499, 683-686). -/
def autoPromoteB (R : Rules) (s : GameState) : Option GameState :=
  if s.needs_promotion_choice then
    let bp := if 'q' ∉ PROMOTION_PIECES_BLACK_STR ∧ 'r' ∈ PROMOTION_PIECES_BLACK_STR then 'r' else 'q'
    match R.completePromotion s bp with
    | (true, s1) => some s1
    | (false, _) => none
  else some s

/-- The maximizing noisy-move loop of `quiescence_search` (ai.py lines
469-482): clones the position, applies the move, recurses with one less
budget (through `recur`), raises alpha, and fail-high returns beta. -/
def qsLoopW (recur : GameState → Score → Score → Score) (R : Rules) (sBase : GameState)
    (beta : Score) : Score → List Move → Score
  | alpha, [] => alpha
  | alpha, m :: rest =>
    match R.makeMove sBase m with
    | (false, _) => qsLoopW recur R sBase beta alpha rest
    | (true, s1) =>
      match autoPromoteW R s1 with
      | none => qsLoopW recur R sBase beta alpha rest
      | some s2 =>
        let score := recur s2 alpha beta
        let alpha1 := Score.smax alpha score
        if Score.le beta alpha1 then beta
        else qsLoopW recur R sBase beta alpha1 rest

/-- The minimizing noisy-move loop of `quiescence_search` (ai.py lines
492-505). -/
def qsLoopB (recur : GameState → Score → Score → Score) (R : Rules) (sBase : GameState)
    (alpha : Score) : Score → List Move → Score
  | beta, [] => beta
  | beta, m :: rest =>
    match R.makeMove sBase m with
    | (false, _) => qsLoopB recur R sBase alpha beta rest
    | (true, s1) =>
      match autoPromoteB R s1 with
      | none => qsLoopB recur R sBase alpha beta rest
      | some s2 =>
        let score := recur s2 alpha beta
        let beta1 := Score.smin beta score
        if Score.le beta1 alpha then alpha
        else qsLoopB recur R sBase alpha beta1 rest

/-- The body of `quiescence_search` for a positive depth budget (ai.py
lines 460-505), with the recursive call abstracted as `recur`; every
recursive call the step makes goes through `recur`, which the caller
instantiates at budget one less. -/
def quiescence_step (recur : GameState → Score → Score → Score) (R : Rules)
    (hist : List (Move × Int)) (s : GameState) (alpha beta sp : Score) : Score × GameState :=
  if s.current_turn = .w then
    if Score.le beta sp then (beta, s)
    else
      let alpha1 := Score.smax alpha sp
      let q := get_noisy_moves R s
      (qsLoopW recur R q.2 beta alpha1 (sortNoisy hist q.2 q.1), q.2)
  else
    if Score.le sp alpha then (alpha, s)
    else
      let beta1 := Score.smin beta sp
      let q := get_noisy_moves R s
      (qsLoopB recur R q.2 alpha beta1 (sortNoisy hist q.2 q.1), q.2)

/-- `quiescence_search` (ai.py lines 445-505): terminal positions and an
exhausted budget return the static evaluation; otherwise the noisy-move
step runs with the recursion at budget one less.  The second component
is the receiver after the call (the legal-move memo may be filled). -/
def quiescence_search (R : Rules) (hist : List (Move × Int)) :
    Nat → GameState → Score → Score → Score × GameState
  | d, s, alpha, beta =>
    if s.checkmate || s.stalemate then (evaluate_position s, s)
    else
      let stand_pat := evaluate_position s
      match d with
      | 0 => (stand_pat, s)
      | d' + 1 =>
        quiescence_step (fun s2 a b => (quiescence_search R hist d' s2 a b).1)
          R hist s alpha beta stand_pat

/-- The killer/history bookkeeping run on a beta cutoff (ai.py lines
666-674 and 696-704): the cutoff move's history entry grows by
`depth * depth`, and the move is pushed to the front of the depth's
killer list unless already present, evicting the oldest entry beyond
two. -/
def record_cutoff (tbl : Tables) (depth : Nat) (m : Move) : Tables :=
  let tbl1 := { tbl with
    history := (m, historyGet tbl.history m + (depth : Int) * (depth : Int)) :: tbl.history }
  let kl := killersGet tbl1 depth
  if m ∈ kl then tbl1
  else
    let k2 := m :: kl
    let k3 := if k2.length > 2 then k2.dropLast else k2
    { tbl1 with killers := (depth, k3) :: tbl1.killers }

/-- The maximizing move loop of `minimax_alpha_beta` (ai.py lines
647-676): clone, apply, auto-promote, recurse one ply (through `recur`,
instantiated at depth one less with roles swapped), track the maximal
score and its move, and on a cutoff run the killer/history update and
stop. -/
def abLoopMax (recur : Tables → GameState → Score → Score → (Score × Option Move) × Tables × GameState)
    (R : Rules) (sBase : GameState) (depth : Nat) (beta : Score) :
    Tables → Score → Score → Option Move → List Move → Score × Option Move × Tables
  | tbl, _alpha, maxEval, best, [] => (maxEval, best, tbl)
  | tbl, alpha, maxEval, best, m :: rest =>
    match R.makeMove sBase m with
    | (false, _) => abLoopMax recur R sBase depth beta tbl alpha maxEval best rest
    | (true, s1) =>
      match autoPromoteW R s1 with
      | none => abLoopMax recur R sBase depth beta tbl alpha maxEval best rest
      | some s2 =>
        let r := recur tbl s2 alpha beta
        let evalScore := r.1.1
        let tbl1 := r.2.1
        let maxEval1 := if Score.lt maxEval evalScore then evalScore else maxEval
        let best1 := if Score.lt maxEval evalScore then some m else best
        let alpha1 := Score.smax alpha evalScore
        if Score.le beta alpha1 then
          (maxEval1, best1,
            match best1 with
            | some bm => record_cutoff tbl1 depth bm
            | none => tbl1)
        else abLoopMax recur R sBase depth beta tbl1 alpha1 maxEval1 best1 rest

/-- The minimizing move loop of `minimax_alpha_beta` (ai.py lines
677-706). -/
def abLoopMin (recur : Tables → GameState → Score → Score → (Score × Option Move) × Tables × GameState)
    (R : Rules) (sBase : GameState) (depth : Nat) (alpha : Score) :
    Tables → Score → Score → Option Move → List Move → Score × Option Move × Tables
  | tbl, _beta, minEval, best, [] => (minEval, best, tbl)
  | tbl, beta, minEval, best, m :: rest =>
    match R.makeMove sBase m with
    | (false, _) => abLoopMin recur R sBase depth alpha tbl beta minEval best rest
    | (true, s1) =>
      match autoPromoteB R s1 with
      | none => abLoopMin recur R sBase depth alpha tbl beta minEval best rest
      | some s2 =>
        let r := recur tbl s2 alpha beta
        let evalScore := r.1.1
        let tbl1 := r.2.1
        let minEval1 := if Score.lt evalScore minEval then evalScore else minEval
        let best1 := if Score.lt evalScore minEval then some m else best
        let beta1 := Score.smin beta evalScore
        if Score.le beta1 alpha then
          (minEval1, best1,
            match best1 with
            | some bm => record_cutoff tbl1 depth bm
            | none => tbl1)
        else abLoopMin recur R sBase depth alpha tbl1 beta1 minEval1 best1 rest

/-- The part of `minimax_alpha_beta` after the TT probe (ai.py lines
631-721): order the legal moves with the TT best move and the killer
list on top, run the move loop with the post-probe window, and store a
TT entry for the achieved depth with the bound flag derived from the
window the loop started from. -/
def abMain (recur : Tables → GameState → Score → Score → Bool → (Score × Option Move) × Tables × GameState)
    (R : Rules) (tbl : Tables) (s1 : GameState) (pos_hash : String) (depth : Nat)
    (alpha beta : Score) (maximizing : Bool) (legal : List Move) (tt_entry : Option TTEntry) :
    (Score × Option Move) × Tables × GameState :=
  let tt_best := tt_entry.bind (·.best_move)
  let ordered := orderedMoves tbl s1 depth tt_best legal
  let res :=
    if maximizing then
      abLoopMax (fun t s2 a b => recur t s2 a b false) R s1 depth beta tbl alpha .ninf none ordered
    else
      abLoopMin (fun t s2 a b => recur t s2 a b true) R s1 depth alpha tbl beta .pinf none ordered
  let final_score := res.1
  let best_move := res.2.1
  let tbl2 := res.2.2
  let flag :=
    if Score.le final_score alpha then TTFlag.UPPERBOUND
    else if Score.le beta final_score then TTFlag.LOWERBOUND
    else TTFlag.EXACT
  ((final_score, best_move),
   { tbl2 with tt := (pos_hash, TTEntry.mk depth final_score flag best_move) :: tbl2.tt },
   s1)

/-- `minimax_alpha_beta` (ai.py lines 602-721).  Depth zero or a
terminal flag delegates to quiescence at the fixed budget; a childless
position returns the static evaluation; otherwise the TT probe either
returns the stored entry or continues into `abMain` with the possibly
tightened window.  Tables and the receiver are threaded explicitly. -/
def minimax_alpha_beta (R : Rules) :
    Nat → Tables → GameState → Score → Score → Bool → (Score × Option Move) × Tables × GameState
  | 0, tbl, s, alpha, beta, _maxim =>
    let q := quiescence_search R tbl.history MAX_QUIESCENCE_DEPTH s alpha beta
    ((q.1, none), tbl, q.2)
  | d + 1, tbl, s, alpha, beta, maxim =>
    if s.checkmate || s.stalemate then
      let q := quiescence_search R tbl.history MAX_QUIESCENCE_DEPTH s alpha beta
      ((q.1, none), tbl, q.2)
    else
      let pos_hash := hashOk s
      let tt_entry := ttGet tbl pos_hash
      let p := getAllLegalMoves R s
      if p.1.isEmpty then ((evaluate_position p.2, none), tbl, p.2)
      else
        match abProbe tt_entry (d + 1) alpha beta with
        | .ret sc mv => ((sc, mv), tbl, p.2)
        | .go a b =>
          abMain (fun t s2 a2 b2 mx => minimax_alpha_beta R d t s2 a2 b2 mx)
            R tbl p.2 pos_hash (d + 1) a b maxim p.1 tt_entry

/-- The maximizing noisy loop of `_quiescence_search` (ai.py lines
1144-1158): each child is searched through `recur` (instantiated at
budget one less); a child at or above the mate sentinel returns the
sentinel immediately; a closed window stops the loop and the running
alpha is returned. -/
def uqLoopMax (recur : GameState → Score → Score → Score) (R : Rules) (sBase : GameState)
    (beta : Score) : Score → List Move → Score
  | alpha, [] => alpha
  | alpha, m :: rest =>
    match R.makeMove (fast_copy_for_simulation sBase) m with
    | (false, _) => uqLoopMax recur R sBase beta alpha rest
    | (true, s1) =>
      let score := recur s1 alpha beta
      if Score.le (.num CHECKMATE_SCORE) score then .num CHECKMATE_SCORE
      else
        let alpha1 := Score.smax alpha score
        if Score.le beta alpha1 then alpha1
        else uqLoopMax recur R sBase beta alpha1 rest

/-- The minimizing noisy loop of `_quiescence_search` (ai.py lines
1168-1182). -/
def uqLoopMin (recur : GameState → Score → Score → Score) (R : Rules) (sBase : GameState)
    (alpha : Score) : Score → List Move → Score
  | beta, [] => beta
  | beta, m :: rest =>
    match R.makeMove (fast_copy_for_simulation sBase) m with
    | (false, _) => uqLoopMin recur R sBase alpha beta rest
    | (true, s1) =>
      let score := recur s1 alpha beta
      if Score.le score (.num (-CHECKMATE_SCORE)) then .num (-CHECKMATE_SCORE)
      else
        let beta1 := Score.smin beta score
        if Score.le beta1 alpha then beta1
        else uqLoopMin recur R sBase alpha beta1 rest

/-- The body of `_quiescence_search` for a positive depth budget, with
the recursion abstracted as `recur`. -/
def uq_step (recur : GameState → Score → Score → Score) (R : Rules) (s1 : GameState)
    (alpha beta stand_pat : Score) (maximizing : Bool) : Score × GameState :=
  if maximizing then
    if Score.le beta stand_pat then (beta, s1)
    else
      let alpha1 := Score.smax alpha stand_pat
      let q := get_noisy_moves R s1
      if q.1.isEmpty then (stand_pat, q.2)
      else (uqLoopMax recur R q.2 beta alpha1 q.1, q.2)
  else
    if Score.le stand_pat alpha then (alpha, s1)
    else
      let beta1 := Score.smin beta stand_pat
      let q := get_noisy_moves R s1
      if q.1.isEmpty then (stand_pat, q.2)
      else (uqLoopMin recur R q.2 alpha beta1 q.1, q.2)

/-- `_quiescence_search` (ai.py lines 1119-1182): compute the stand-pat
evaluation, return the mate/stalemate score when no legal move exists,
return the stand-pat score when the budget is exhausted, and otherwise
run the noisy loop with the recursion at budget one less. -/
def _quiescence_search (R : Rules) :
    Nat → GameState → Score → Score → Bool → Score × GameState
  | d, s, alpha, beta, maximizing =>
    let stand_pat := evaluate_position s
    let p := getAllLegalMoves R s
    if p.1.isEmpty then
      (if R.isInCheck p.2 p.2.current_turn then
        (if p.2.current_turn = .w then .num (-CHECKMATE_SCORE) else .num CHECKMATE_SCORE)
       else .num STALEMATE_SCORE, p.2)
    else
      match d with
      | 0 => (stand_pat, p.2)
      | d' + 1 =>
        uq_step (fun s2 a b => (_quiescence_search R d' s2 a b (!maximizing)).1)
          R p.2 alpha beta stand_pat maximizing

/-- The maximizing loop of `_minimax_recursive` (ai.py lines 1076-1095):
a child reaching the mate sentinel short-circuits the whole node to the
sentinel; otherwise the maximal child value is tracked with the usual
beta cutoff. -/
def mrLoopMax (recur : GameState → Score → Score → Score) (R : Rules) (sBase : GameState)
    (beta : Score) : Score → Score → List Move → Score
  | maxEval, _alpha, [] => maxEval
  | maxEval, alpha, m :: rest =>
    match R.makeMove (fast_copy_for_simulation sBase) m with
    | (false, _) => mrLoopMax recur R sBase beta maxEval alpha rest
    | (true, s1) =>
      let score := recur s1 alpha beta
      if Score.le (.num CHECKMATE_SCORE) score then .num CHECKMATE_SCORE
      else
        let maxEval1 := Score.smax maxEval score
        let alpha1 := Score.smax alpha score
        if Score.le beta alpha1 then maxEval1
        else mrLoopMax recur R sBase beta maxEval1 alpha1 rest

/-- The minimizing loop of `_minimax_recursive` (ai.py lines
1097-1116). -/
def mrLoopMin (recur : GameState → Score → Score → Score) (R : Rules) (sBase : GameState)
    (alpha : Score) : Score → Score → List Move → Score
  | minEval, _beta, [] => minEval
  | minEval, beta, m :: rest =>
    match R.makeMove (fast_copy_for_simulation sBase) m with
    | (false, _) => mrLoopMin recur R sBase alpha minEval beta rest
    | (true, s1) =>
      let score := recur s1 alpha beta
      if Score.le score (.num (-CHECKMATE_SCORE)) then .num (-CHECKMATE_SCORE)
      else
        let minEval1 := Score.smin minEval score
        let beta1 := Score.smin beta score
        if Score.le beta1 alpha then minEval1
        else mrLoopMin recur R sBase alpha minEval1 beta1 rest

/-- `_minimax_recursive` (ai.py lines 1056-1116): the worker-side plain
alpha-beta recursion.  A childless position scores as checkmate against
the side to move or stalemate; depth zero delegates to
`_quiescence_search` at the fixed budget; otherwise the move loops run
with the recursion at depth one less. -/
def _minimax_recursive (R : Rules) :
    Nat → GameState → Score → Score → Bool → Score × GameState
  | d, s, alpha, beta, maximizing =>
    let p := getAllLegalMoves R s
    if p.1.isEmpty then
      (if R.isInCheck p.2 p.2.current_turn then
        (if p.2.current_turn = .w then .num (-CHECKMATE_SCORE) else .num CHECKMATE_SCORE)
       else .num STALEMATE_SCORE, p.2)
    else
      match d with
      | 0 => _quiescence_search R MAX_QUIESCENCE_DEPTH p.2 alpha beta maximizing
      | d' + 1 =>
        if maximizing then
          (mrLoopMax (fun s2 a b => (_minimax_recursive R d' s2 a b false).1)
            R p.2 beta .ninf alpha p.1, p.2)
        else
          (mrLoopMin (fun s2 a b => (_minimax_recursive R d' s2 a b true).1)
            R p.2 alpha .pinf beta p.1, p.2)

/-- The sentinel worst score a faulting worker substitutes for its move
(ai.py lines 1032 and 1053). -/
def errScore (maximizing : Bool) : Score :=
  if maximizing then .num (-CHECKMATE_SCORE) else .num CHECKMATE_SCORE

/-- `_minimax_worker` (ai.py lines 1024-1054): applies its root move to
its own clone and searches the rest with `_minimax_recursive`; a failed
application, or any exception inside the worker (the `fault` flag),
yields the sentinel worst score for that move instead of raising. -/
def _minimax_worker (R : Rules) (fault : Bool) (m : Move) (sClone : GameState)
    (depth : Nat) (alpha beta : Score) (maximizing : Bool) : Move × Score :=
  if fault then (m, errScore maximizing)
  else
    match R.makeMove sClone m with
    | (false, _) => (m, errScore maximizing)
    | (true, s1) => (m, (_minimax_recursive R (depth - 1) s1 alpha beta (!maximizing)).1)

/-- The immediate-mate sentinel for the side to move (ai.py line 983). -/
def matingScoreFor (turn : Color) : Score :=
  if turn = .w then .num CHECKMATE_SCORE else .num (-CHECKMATE_SCORE)

/-- One step of the maximal-score scan of `minimax` (ai.py lines
1000-1003): `if score > best_score: best_score = score; best_move = move`. -/
def stepMax (acc : Option Move × Score) (p : Move × Score) : Option Move × Score :=
  if Score.lt acc.2 p.2 then (some p.1, p.2) else acc

/-- One step of the minimal-score scan (ai.py lines 1006-1009). -/
def stepMin (acc : Option Move × Score) (p : Move × Score) : Option Move × Score :=
  if Score.lt p.2 acc.2 then (some p.1, p.2) else acc

/-- The maximal-score selection of `minimax` (ai.py lines 997-1003):
`best_move` defaults to the first pair's move with `best_score = -inf`,
then every pair with a strictly larger score replaces both. -/
def selectMax (rs : List (Move × Score)) : Option Move × Score :=
  match rs with
  | [] => (none, .ninf)
  | r0 :: _ => rs.foldl stepMax (some r0.1, Score.ninf)

/-- The minimal-score selection of `minimax` (ai.py lines 1004-1009). -/
def selectMin (rs : List (Move × Score)) : Option Move × Score :=
  match rs with
  | [] => (none, .pinf)
  | r0 :: _ => rs.foldl stepMin (some r0.1, Score.pinf)

/-- The reconciliation of collected root results (ai.py lines 981-1012):
the first result whose score equals the mating sentinel for the side to
move is returned unconditionally; otherwise the extremal pair is
chosen. -/
def minimaxSelect (turn : Color) (rs : List (Move × Score)) : Option Move × Score :=
  match rs.find? (fun p => p.2 = matingScoreFor turn) with
  | some p => (some p.1, matingScoreFor turn)
  | none => if turn = .w then selectMax rs else selectMin rs

/-- `minimax` (ai.py lines 930-1022), the parallel root dispatcher: one
worker per legal root move, each on its own pickled clone with the full
window, then mate-priority reconciliation.  `faults` marks workers whose
search raises; `poolFault` models an exception escaping the dispatch
itself, recovered by the random-move fallback (`choose` stands for
`random.choice`). -/
def minimax (R : Rules) (faults : Move → Bool) (poolFault : Bool)
    (choose : List Move → Option Move) (s : GameState) (depth : Nat) :
    (Option Move × Score) × GameState :=
  if poolFault then
    let p := getAllLegalMoves R s
    match p.1 with
    | [] => ((none, .num 0), p.2)
    | ms => ((choose ms, .num 0), p.2)
  else
    let p := getAllLegalMoves R s
    let legal := p.1
    let s1 := p.2
    if legal.isEmpty then ((none, .num 0), s1)
    else
      let maximizing := s1.current_turn = .w
      let all_results := legal.map (fun m =>
        _minimax_worker R (faults m) m s1 depth .ninf .pinf maximizing)
      if all_results.isEmpty then
        if s1.checkmate then
          ((none, if s1.current_turn = .w then .num (-CHECKMATE_SCORE) else .num CHECKMATE_SCORE), s1)
        else if s1.stalemate then ((none, .num STALEMATE_SCORE), s1)
        else
          let p2 := getAllLegalMoves R s1
          match p2.1 with
          | [] =>
            ((none,
              if !(R.isInCheck p2.2 p2.2.current_turn) then .num STALEMATE_SCORE
              else (if p2.2.current_turn = .w then .num (-CHECKMATE_SCORE) else .num CHECKMATE_SCORE)),
             p2.2)
          | ms => ((choose ms, .ninf), p2.2)
      else (minimaxSelect s1.current_turn all_results, s1)

/-- The move cache of `ai.py`: `(position hash, depth)` to the
deserialised cached move; a `none` value models a cached string whose
`eval` raises. -/
def MoveCacheT : Type := List ((String × Nat) × Option Move)

/-- `move_cache.get(cache_key)`. -/
def cacheGet (c : MoveCacheT) (k : String × Nat) : Option (Option Move) := c.lookup k

/-- `move_cache[cache_key] = repr(best_move)`. -/
def cacheSet (c : MoveCacheT) (k : String × Nat) (v : Option Move) : MoveCacheT := (k, v) :: c

/-- `del move_cache[cache_key]`. -/
def cacheDel (c : MoveCacheT) (k : String × Nat) : MoveCacheT := c.filter (fun p => p.1 ≠ k)

/-- The iterative-deepening loop of `find_best_move` (ai.py lines
844-891) over the remaining depths: a depth whose body faults
(`driverFault`) falls into the driver's `except`, which substitutes a
random legal move only when no best move exists yet; a cached move for
the target depth that is still legal is adopted and the loop stops;
otherwise the parallel root search runs at this depth, its move is
cached per depth, and a near-mate score stops the deepening. -/
def idLoop (R : Rules) (faults : Nat → Move → Bool) (poolFaults : Nat → Bool)
    (driverFault : Nat → Bool) (choose : List Move → Option Move) (pos_hash : String)
    (targetDepth : Nat) (legal : List Move) :
    List Nat → Option Move → MoveCacheT → GameState → Option Move × MoveCacheT × GameState
  | [], best, cache, s => (best, cache, s)
  | d :: rest, best, cache, s =>
    if driverFault d then
      (match best with
       | some b => some b
       | none => match legal with | [] => none | ms => choose ms
       , cache, s)
    else
      match cacheGet cache (pos_hash, d), decide (d = targetDepth) with
      | some (some cm), true =>
        let pl := getAllLegalMoves R s
        if cm ∈ pl.1 then (some cm, cache, pl.2)
        else
          let mr := minimax R (faults d) (poolFaults d) choose pl.2 d
          match mr.1.1 with
          | some bm =>
            let cache1 := cacheSet cache (pos_hash, d) (some bm)
            if Score.le (.num 900000) (Score.sabs mr.1.2) then (some bm, cache1, mr.2)
            else idLoop R faults poolFaults driverFault choose pos_hash targetDepth legal
              rest (some bm) cache1 mr.2
          | none => (best, cache, mr.2)
      | _, _ =>
        let mr := minimax R (faults d) (poolFaults d) choose s d
        match mr.1.1 with
        | some bm =>
          let cache1 := cacheSet cache (pos_hash, d) (some bm)
          if Score.le (.num 900000) (Score.sabs mr.1.2) then (some bm, cache1, mr.2)
          else idLoop R faults poolFaults driverFault choose pos_hash targetDepth legal
            rest (some bm) cache1 mr.2
        | none => (best, cache, mr.2)

/-- The search part of `find_best_move` after the top-level cache check
(ai.py lines 809-907): compute the legal moves on a deep copy, fail
closed with no move when none exist, shortcut a single legal move
(caching it), and otherwise run iterative deepening from depth 1,
finally caching the chosen move under the requested depth. -/
def fbmSearch (R : Rules) (faults : Nat → Move → Bool) (poolFaults : Nat → Bool)
    (driverFault : Nat → Bool) (choose : List Move → Option Move) (cache : MoveCacheT)
    (s : GameState) (depth : Nat) (pos_hash : String) : Option Move × MoveCacheT × GameState :=
  let legal := (getAllLegalMoves R s).1
  match legal with
  | [] => (none, cache, s)
  | [bm] => (some bm, cacheSet cache (pos_hash, depth) (some bm), s)
  | _ =>
    let r := idLoop R faults poolFaults driverFault choose pos_hash depth legal
      (List.range' 1 depth) none cache s
    match r.1 with
    | some bm => (some bm, cacheSet r.2.1 (pos_hash, depth) (some bm), r.2.2)
    | none => (none, r.2.1, r.2.2)

/-- `find_best_move` (ai.py lines 758-907): the iterative-deepening
driver.  A promotion-pending state fails closed with no move; a cached
move for `(hash, depth)` that deserialises and is still legal is
returned at once (a failed deserialisation deletes the entry); otherwise
the search runs.  The returned triple carries the chosen move, the move
cache and the caller's state object after the call. -/
def find_best_move (R : Rules) (faults : Nat → Move → Bool) (poolFaults : Nat → Bool)
    (driverFault : Nat → Bool) (choose : List Move → Option Move) (cache : MoveCacheT)
    (s : GameState) (depth : Nat) : Option Move × MoveCacheT × GameState :=
  if s.needs_promotion_choice then (none, cache, s)
  else
    let pos_hash := hashOk s
    match cacheGet cache (pos_hash, depth) with
    | some (some cm) =>
      let pl := getAllLegalMoves R s
      if cm ∈ pl.1 then (some cm, cache, pl.2)
      else fbmSearch R faults poolFaults driverFault choose cache pl.2 depth pos_hash
    | some none =>
      fbmSearch R faults poolFaults driverFault choose (cacheDel cache (pos_hash, depth)) s depth pos_hash
    | none => fbmSearch R faults poolFaults driverFault choose cache s depth pos_hash

/-- Concrete data for witnesses: a first normal move. -/
def mv0 : Move := .normal (0, 0) (1, 0) none

/-- A second normal move. -/
def mv1 : Move := .normal (0, 1) (1, 1) none

/-- A third normal move. -/
def mv2 : Move := .normal (2, 2) (3, 3) none

/-- An empty 6x6 board. -/
def emptyBoard : List (List Char) :=
  List.replicate BOARD_SIZE (List.replicate BOARD_SIZE EMPTY_SQUARE)

/-- A quiet white-to-move state with no memoised legal moves. -/
def gs0 : GameState :=
  ⟨emptyBoard, [], [], .w, false, false, none, none, false, none,
   false, false, false, false, none⟩

/-- A concrete rules-engine instance for evaluating the embedded search
on closed inputs: two legal moves everywhere, always-applicable moves,
never in check. -/
def R0 : Rules :=
  ⟨fun _ => [mv0, mv1], fun s _ => (true, s), fun s _ => (true, s), fun _ _ => false⟩

/-- A concrete selector standing for `random.choice`. -/
def choose0 : List Move → Option Move := fun l => l.head?

/-- A move cache holding a valid cached move for `gs0` at depth 1. -/
def cacheHit : MoveCacheT := [((hashOk gs0, 1), some mv0)]

/-- A row of empty squares. -/
def rowDots : List Char := List.replicate BOARD_SIZE EMPTY_SQUARE

/-- A board holding a single white queen. -/
def boardQ : List (List Char) :=
  [rowDots, rowDots, rowDots, ['.', '.', '.', 'Q', '.', '.'], rowDots, rowDots]

/-- A stalemate position in which White, the side to move, leads by a
queen. -/
def sStale : GameState :=
  ⟨boardQ, [], [], .w, false, true, none, none, false, none,
   false, false, false, false, none⟩

/-- A quiet state with a preset legal-move memo, for exercising the TT
probe on closed inputs. -/
def sAB : GameState :=
  ⟨emptyBoard, [], [], .w, false, false, none, none, false, none,
   false, false, false, false, some [mv0]⟩

/-- A stored exact entry deeper than the query. -/
def eEx : TTEntry := ⟨5, .num 7, .EXACT, some mv2⟩

/-- A table set holding exactly the entry for `sAB`. -/
def tblEx : Tables := ⟨[(hashOk sAB, eEx)], [], []⟩

/-- Hands listed in one insertion order. -/
def s71 : GameState :=
  ⟨emptyBoard, [('N', 1), ('P', 2)], [('R', 1)], .b, false, false, none, none,
   false, none, true, false, true, false, none⟩

/-- The same canonical fields with the white hand listed in the other
order and every non-hashed field changed. -/
def s72 : GameState :=
  ⟨emptyBoard, [('P', 2), ('N', 1)], [('R', 1)], .b, true, true, some (0, 0),
   some (5, 5), true, none, true, false, true, false, some []⟩

/-- A killer move already recorded at depth 3. -/
def mvK1 : Move := .normal (4, 4) (3, 4) none

/-- A second recorded killer move. -/
def mvK2 : Move := .normal (1, 1) (2, 1) none

/-- Tables with a full killer list at depth 3. -/
def tblK : Tables := ⟨[], [(3, [mvK1, mvK2])], []⟩

/-- Root results in which a non-mate score exceeds the mate sentinel's
move score numerically on no move, but a larger heuristic score competes
with an exact mate. -/
def rsMate : List (Move × Score) := [(mv0, .num 2000000), (mv1, .num 1000000)]

/-- Reflexivity of the score comparison. -/
theorem Score.le_refl_s (a : Score) : Score.le a a = true := by
  cases a <;> simp [Score.le]

/-- Totality of the score comparison. -/
theorem Score.le_total_s (a b : Score) : Score.le a b = true ∨ Score.le b a = true := by
  cases a <;> cases b <;> simp [Score.le] <;> exact le_total _ _

/-- Transitivity of the score comparison. -/
theorem Score.le_trans_s {a b c : Score} (h1 : Score.le a b = true)
    (h2 : Score.le b c = true) : Score.le a c = true := by
  cases a <;> cases b <;> cases c <;> simp_all [Score.le]
  exact le_trans h1 h2

/-- A score below minus infinity is minus infinity. -/
theorem Score.eq_ninf_of_le {x : Score} (h : Score.le x .ninf = true) : x = .ninf := by
  cases x <;> simp_all [Score.le]

/-- A score above plus infinity is plus infinity. -/
theorem Score.eq_pinf_of_le {x : Score} (h : Score.le .pinf x = true) : x = .pinf := by
  cases x <;> simp_all [Score.le]

/-- Failing strict comparison one way gives the comparison back. -/
theorem Score.le_of_lt_false {a b : Score} (h : Score.lt a b = false) :
    Score.le b a = true := by
  simpa [Score.lt] using h

/-- Strict comparison gives the comparison. -/
theorem Score.le_of_lt_s {a b : Score} (h : Score.lt a b = true) :
    Score.le a b = true := by
  have hba : Score.le b a = false := by simpa [Score.lt] using h
  rcases Score.le_total_s a b with h1 | h1
  · exact h1
  · rw [h1] at hba; cases hba

/-- The left argument is below the Python maximum. -/
theorem Score.le_smax_left (a b : Score) : Score.le a (Score.smax a b) = true := by
  unfold Score.smax
  by_cases h : Score.lt a b = true
  · simp [h, Score.le_of_lt_s h]
  · simp [Bool.not_eq_true] at h
    simp [h, Score.le_refl_s]

/-- The right argument is below the Python maximum. -/
theorem Score.le_smax_right (a b : Score) : Score.le b (Score.smax a b) = true := by
  unfold Score.smax
  by_cases h : Score.lt a b = true
  · simp [h, Score.le_refl_s]
  · simp [Bool.not_eq_true] at h
    simp [h, Score.le_of_lt_false h]

/-- The running score of the maximal scan only grows. -/
theorem stepMax_mono (acc : Option Move × Score) (p : Move × Score) :
    Score.le acc.2 (stepMax acc p).2 = true := by
  unfold stepMax
  by_cases h : Score.lt acc.2 p.2 = true
  · simp [h, Score.le_of_lt_s h]
  · simp [Bool.not_eq_true] at h
    simp [h, Score.le_refl_s]

/-- The processed pair is below the new running score of the scan. -/
theorem stepMax_ub (acc : Option Move × Score) (p : Move × Score) :
    Score.le p.2 (stepMax acc p).2 = true := by
  unfold stepMax
  by_cases h : Score.lt acc.2 p.2 = true
  · simp [h, Score.le_refl_s]
  · simp [Bool.not_eq_true] at h
    simp [h, Score.le_of_lt_false h]

/-- The maximal scan only grows along a list. -/
theorem foldMax_mono (l : List (Move × Score)) :
    ∀ acc : Option Move × Score, Score.le acc.2 (l.foldl stepMax acc).2 = true := by
  induction l with
  | nil => intro acc; exact Score.le_refl_s _
  | cons q t ih =>
    intro acc
    exact Score.le_trans_s (stepMax_mono acc q) (ih (stepMax acc q))

/-- Every score in the list is below the result of the maximal scan. -/
theorem foldMax_ub (l : List (Move × Score)) :
    ∀ acc : Option Move × Score, ∀ p ∈ l, Score.le p.2 (l.foldl stepMax acc).2 = true := by
  induction l with
  | nil => intro acc p hp; cases hp
  | cons q t ih =>
    intro acc p hp
    rcases List.mem_cons.mp hp with h | h
    · subst h
      exact Score.le_trans_s (stepMax_ub acc p) (foldMax_mono t (stepMax acc p))
    · exact ih (stepMax acc q) p h

/-- The maximal scan either keeps its accumulator or lands on a pair of
the list. -/
theorem foldMax_mem (l : List (Move × Score)) :
    ∀ acc : Option Move × Score,
      l.foldl stepMax acc = acc ∨ ∃ p ∈ l, l.foldl stepMax acc = (some p.1, p.2) := by
  induction l with
  | nil => intro acc; exact Or.inl rfl
  | cons q t ih =>
    intro acc
    rcases ih (stepMax acc q) with h | ⟨p, hp, hres⟩
    · by_cases hq : Score.lt acc.2 q.2 = true
      · refine Or.inr ⟨q, List.mem_cons_self q t, ?_⟩
        simpa [stepMax, hq] using h
      · simp [Bool.not_eq_true] at hq
        refine Or.inl ?_
        simpa [stepMax, hq] using h
    · exact Or.inr ⟨p, List.mem_cons_of_mem q hp, hres⟩

/-- `selectMax` on a nonempty result list returns a pair of the list
whose score bounds every listed score. -/
theorem selectMax_spec (rs : List (Move × Score)) (h : rs ≠ []) :
    (∃ p ∈ rs, selectMax rs = (some p.1, p.2)) ∧
    (∀ p ∈ rs, Score.le p.2 (selectMax rs).2 = true) := by
  match rs with
  | [] => exact absurd rfl h
  | r0 :: t =>
    constructor
    · rcases foldMax_mem (r0 :: t) (some r0.1, Score.ninf) with hid | hmem
      · refine ⟨r0, List.mem_cons_self r0 t, ?_⟩
        have hub := foldMax_ub (r0 :: t) (some r0.1, Score.ninf) r0 (List.mem_cons_self r0 t)
        rw [show selectMax (r0 :: t) = (r0 :: t).foldl stepMax (some r0.1, Score.ninf) from rfl, hid]
        rw [hid] at hub
        have : r0.2 = Score.ninf := Score.eq_ninf_of_le hub
        rw [this]
      · exact hmem
    · intro p hp
      exact foldMax_ub (r0 :: t) (some r0.1, Score.ninf) p hp

/-- The Python minimum bounds its left argument from below. -/
theorem Score.smin_le_left (a b : Score) : Score.le (Score.smin a b) a = true := by
  unfold Score.smin
  by_cases h : Score.lt b a = true
  · simp [h, Score.le_of_lt_s h]
  · simp [Bool.not_eq_true] at h
    simp [h, Score.le_refl_s]

/-- The Python minimum bounds its right argument from below. -/
theorem Score.smin_le_right (a b : Score) : Score.le (Score.smin a b) b = true := by
  unfold Score.smin
  by_cases h : Score.lt b a = true
  · simp [h, Score.le_refl_s]
  · simp [Bool.not_eq_true] at h
    simp [h, Score.le_of_lt_false h]

/-- The running score of the minimal scan only shrinks. -/
theorem stepMin_mono (acc : Option Move × Score) (p : Move × Score) :
    Score.le (stepMin acc p).2 acc.2 = true := by
  unfold stepMin
  by_cases h : Score.lt p.2 acc.2 = true
  · simp [h, Score.le_of_lt_s h]
  · simp [Bool.not_eq_true] at h
    simp [h, Score.le_refl_s]

/-- The processed pair bounds the new running score of the minimal scan
from below. -/
theorem stepMin_lb (acc : Option Move × Score) (p : Move × Score) :
    Score.le (stepMin acc p).2 p.2 = true := by
  unfold stepMin
  by_cases h : Score.lt p.2 acc.2 = true
  · simp [h, Score.le_refl_s]
  · simp [Bool.not_eq_true] at h
    simp [h, Score.le_of_lt_false h]

/-- The minimal scan only shrinks along a list. -/
theorem foldMin_mono (l : List (Move × Score)) :
    ∀ acc : Option Move × Score, Score.le (l.foldl stepMin acc).2 acc.2 = true := by
  induction l with
  | nil => intro acc; exact Score.le_refl_s _
  | cons q t ih =>
    intro acc
    exact Score.le_trans_s (ih (stepMin acc q)) (stepMin_mono acc q)

/-- The result of the minimal scan is below every score in the list. -/
theorem foldMin_lb (l : List (Move × Score)) :
    ∀ acc : Option Move × Score, ∀ p ∈ l, Score.le (l.foldl stepMin acc).2 p.2 = true := by
  induction l with
  | nil => intro acc p hp; cases hp
  | cons q t ih =>
    intro acc p hp
    rcases List.mem_cons.mp hp with h | h
    · subst h
      exact Score.le_trans_s (foldMin_mono t (stepMin acc p)) (stepMin_lb acc p)
    · exact ih (stepMin acc q) p h

/-- The minimal scan either keeps its accumulator or lands on a pair of
the list. -/
theorem foldMin_mem (l : List (Move × Score)) :
    ∀ acc : Option Move × Score,
      l.foldl stepMin acc = acc ∨ ∃ p ∈ l, l.foldl stepMin acc = (some p.1, p.2) := by
  induction l with
  | nil => intro acc; exact Or.inl rfl
  | cons q t ih =>
    intro acc
    rcases ih (stepMin acc q) with h | ⟨p, hp, hres⟩
    · by_cases hq : Score.lt q.2 acc.2 = true
      · refine Or.inr ⟨q, List.mem_cons_self q t, ?_⟩
        simpa [stepMin, hq] using h
      · simp [Bool.not_eq_true] at hq
        refine Or.inl ?_
        simpa [stepMin, hq] using h
    · exact Or.inr ⟨p, List.mem_cons_of_mem q hp, hres⟩

/-- `selectMin` on a nonempty result list returns a pair of the list
whose score is below every listed score. -/
theorem selectMin_spec (rs : List (Move × Score)) (h : rs ≠ []) :
    (∃ p ∈ rs, selectMin rs = (some p.1, p.2)) ∧
    (∀ p ∈ rs, Score.le (selectMin rs).2 p.2 = true) := by
  match rs with
  | [] => exact absurd rfl h
  | r0 :: t =>
    constructor
    · rcases foldMin_mem (r0 :: t) (some r0.1, Score.pinf) with hid | hmem
      · refine ⟨r0, List.mem_cons_self r0 t, ?_⟩
        have hlb := foldMin_lb (r0 :: t) (some r0.1, Score.pinf) r0 (List.mem_cons_self r0 t)
        rw [show selectMin (r0 :: t) = (r0 :: t).foldl stepMin (some r0.1, Score.pinf) from rfl, hid]
        rw [hid] at hlb
        have : r0.2 = Score.pinf := Score.eq_pinf_of_le hlb
        rw [this]
      · exact hmem
    · intro p hp
      exact foldMin_lb (r0 :: t) (some r0.1, Score.pinf) p hp

/-- `minimaxSelect` on a nonempty list returns some move. -/
theorem minimaxSelect_some (turn : Color) (rs : List (Move × Score)) (h : rs ≠ []) :
    ∃ m, (minimaxSelect turn rs).1 = some m := by
  unfold minimaxSelect
  cases hf : rs.find? (fun p => p.2 = matingScoreFor turn) with
  | some p => exact ⟨p.1, rfl⟩
  | none =>
    by_cases hw : turn = .w
    · rcases (selectMax_spec rs h).1 with ⟨p, _, hp⟩
      exact ⟨p.1, by simp [hw, hp]⟩
    · rcases (selectMin_spec rs h).1 with ⟨p, _, hp⟩
      exact ⟨p.1, by simp [hw, hp]⟩

/-- The legal-move wrapper changes its receiver at most in the memo
field. -/
theorem eraseMemo_getAll (R : Rules) (s : GameState) :
    eraseMemo (getAllLegalMoves R s).2 = eraseMemo s := by
  unfold getAllLegalMoves eraseMemo
  cases s.legalCache with
  | some l => rfl
  | none => by_cases h : s.needs_promotion_choice <;> simp [h]

/-- The legal-move list observed at the receiver is stable across the
wrapper call. -/
theorem legalMovesOf_getAll (R : Rules) (s : GameState) :
    legalMovesOf R (getAllLegalMoves R s).2 = legalMovesOf R s := by
  unfold legalMovesOf getAllLegalMoves
  cases hc : s.legalCache with
  | some l => simp [hc]
  | none => by_cases h : s.needs_promotion_choice <;> simp [h, hc]

/-- The promotion-pending flag is readable through `eraseMemo`. -/
theorem needsPromo_of_eraseMemo {s s' : GameState}
    (h : eraseMemo s' = eraseMemo s) :
    s'.needs_promotion_choice = s.needs_promotion_choice := by
  have := congrArg GameState.needs_promotion_choice h
  simpa [eraseMemo] using this

/-- `quiescence_search` changes its receiver at most in the memo field. -/
theorem eraseMemo_quiescence (R : Rules) (hist : List (Move × Int)) (d : Nat)
    (s : GameState) (alpha beta : Score) :
    eraseMemo (quiescence_search R hist d s alpha beta).2 = eraseMemo s := by
  unfold quiescence_search quiescence_step get_noisy_moves
  repeat' (first | split | simp [eraseMemo_getAll])
  all_goals simp [eraseMemo_getAll]

/-- `_quiescence_search` changes its receiver at most in the memo
field. -/
theorem eraseMemo_uq (R : Rules) (d : Nat) (s : GameState) (alpha beta : Score)
    (maximizing : Bool) :
    eraseMemo (_quiescence_search R d s alpha beta maximizing).2 = eraseMemo s := by
  unfold _quiescence_search uq_step get_noisy_moves
  repeat' (first | split | simp [eraseMemo_getAll])
  all_goals simp [eraseMemo_getAll]

/-- `_minimax_recursive` changes its receiver at most in the memo
field. -/
theorem eraseMemo_mr (R : Rules) (d : Nat) (s : GameState) (alpha beta : Score)
    (maximizing : Bool) :
    eraseMemo (_minimax_recursive R d s alpha beta maximizing).2 = eraseMemo s := by
  unfold _minimax_recursive
  repeat' (first | split | simp [eraseMemo_getAll, eraseMemo_uq])
  all_goals simp [eraseMemo_getAll, eraseMemo_uq]

/-- `minimax` changes the dispatcher's receiver at most in the memo
field: workers only ever receive clones. -/
theorem eraseMemo_minimax (R : Rules) (faults : Move → Bool) (poolFault : Bool)
    (choose : List Move → Option Move) (s : GameState) (depth : Nat) :
    eraseMemo (minimax R faults poolFault choose s depth).2 = eraseMemo s := by
  unfold minimax
  repeat' (first | split | simp [eraseMemo_getAll])
  all_goals simp [eraseMemo_getAll]

/-- The legal-move list is stable across `minimax`. -/
theorem legalMovesOf_minimax (R : Rules) (faults : Move → Bool) (poolFault : Bool)
    (choose : List Move → Option Move) (s : GameState) (depth : Nat) :
    legalMovesOf R (minimax R faults poolFault choose s depth).2 = legalMovesOf R s := by
  unfold minimax
  repeat' (first | split | simp [legalMovesOf_getAll])
  all_goals simp [legalMovesOf_getAll]

/-- `minimax` returns some move whenever the receiver has a legal move,
whether or not the dispatch faults. -/
theorem minimax_some (R : Rules) (faults : Move → Bool) (poolFault : Bool)
    (choose : List Move → Option Move) (s : GameState) (depth : Nat)
    (hchoose : ∀ l : List Move, l ≠ [] → ∃ m ∈ l, choose l = some m)
    (hleg : legalMovesOf R s ≠ []) :
    ∃ m, (minimax R faults poolFault choose s depth).1.1 = some m := by
  have hleg' : (getAllLegalMoves R s).1 ≠ [] := hleg
  unfold minimax
  by_cases hp : poolFault = true
  · simp only [hp, if_true]
    cases hl : (getAllLegalMoves R s).1 with
    | nil => exact absurd hl hleg'
    | cons a t =>
      rcases hchoose (a :: t) (by simp) with ⟨m, _, hc⟩
      exact ⟨m, by simp [hl, hc]⟩
  · simp only [Bool.not_eq_true] at hp
    simp only [hp, Bool.false_eq_true, if_false]
    have hne : ((getAllLegalMoves R s).1.map (fun m =>
        _minimax_worker R (faults m) m (getAllLegalMoves R s).2 depth .ninf .pinf
          (decide ((getAllLegalMoves R s).2.current_turn = Color.w)))) ≠ [] := by
      simpa using hleg'
    rcases minimaxSelect_some (getAllLegalMoves R s).2.current_turn _ hne with ⟨m, hm⟩
    refine ⟨m, ?_⟩
    simp only [List.isEmpty_iff, hleg', if_false, hne]
    simpa using hm

/-- The iterative-deepening loop yields some move as long as the
driver's legal-move list is nonempty: every branch either keeps an
already-found move, adopts a validated cached move, takes the root
search's move, or falls back to the random choice. -/
theorem idLoop_some (R : Rules) (faults : Nat → Move → Bool) (poolFaults : Nat → Bool)
    (driverFault : Nat → Bool) (choose : List Move → Option Move) (ph : String)
    (td : Nat) (legal : List Move)
    (hchoose : ∀ l : List Move, l ≠ [] → ∃ m ∈ l, choose l = some m)
    (hlegalNE : legal ≠ []) :
    ∀ (dlist : List Nat) (best : Option Move) (cache : MoveCacheT) (s : GameState),
      legalMovesOf R s ≠ [] → (dlist = [] → best ≠ none) →
      ∃ m, (idLoop R faults poolFaults driverFault choose ph td legal dlist best cache s).1 = some m := by
  intro dlist
  induction dlist with
  | nil =>
    intro best cache s _ hbase
    cases best with
    | none => exact absurd rfl (hbase rfl)
    | some b => exact ⟨b, rfl⟩
  | cons d rest ih =>
    intro best cache s hleg _hbase
    by_cases hdf : driverFault d = true
    · cases best with
      | some b => exact ⟨b, by simp [idLoop, hdf]⟩
      | none =>
        cases hl : legal with
        | nil => exact absurd hl hlegalNE
        | cons a t =>
          rcases hchoose (a :: t) (by simp) with ⟨m, _, hc⟩
          exact ⟨m, by simp [idLoop, hdf, hl, hc]⟩
    · simp only [Bool.not_eq_true] at hdf
      have step : ∀ (s' : GameState) (cache' : MoveCacheT), legalMovesOf R s' ≠ [] →
          ∃ m, (let mr := minimax R (faults d) (poolFaults d) choose s' d
                match mr.1.1 with
                | some bm =>
                  if Score.le (.num 900000) (Score.sabs mr.1.2) then
                    (some bm, cacheSet cache' (ph, d) (some bm), mr.2)
                  else idLoop R faults poolFaults driverFault choose ph td legal
                    rest (some bm) (cacheSet cache' (ph, d) (some bm)) mr.2
                | none => (best, cache', mr.2)).1 = some m := by
        intro s' cache' hleg'
        rcases minimax_some R (faults d) (poolFaults d) choose s' d hchoose hleg' with ⟨bm, hbm⟩
        simp only [hbm]
        by_cases hmate : Score.le (.num 900000) (Score.sabs (minimax R (faults d) (poolFaults d) choose s' d).1.2) = true
        · exact ⟨bm, by simp [hmate]⟩
        · simp only [Bool.not_eq_true] at hmate
          simp only [hmate, Bool.false_eq_true, if_false]
          refine ih (some bm) (cacheSet cache' (ph, d) (some bm))
            (minimax R (faults d) (poolFaults d) choose s' d).2 ?_ (by intro; simp)
          rw [legalMovesOf_minimax]
          exact hleg'
      rcases hcg : cacheGet cache (ph, d) with _ | cv
      · have := step s cache hleg
        simpa [idLoop, hdf, hcg] using this
      · rcases cv with _ | cm
        · have := step s cache hleg
          simpa [idLoop, hdf, hcg] using this
        · by_cases hdt : d = td
          · subst hdt
            by_cases hmem : cm ∈ (getAllLegalMoves R s).1
            · exact ⟨cm, by simp [idLoop, hdf, hcg, hmem]⟩
            · have hleg2 : legalMovesOf R (getAllLegalMoves R s).2 ≠ [] := by
                rw [legalMovesOf_getAll]; exact hleg
              have := step (getAllLegalMoves R s).2 cache hleg2
              simpa [idLoop, hdf, hcg, hmem] using this
          · have := step s cache hleg
            simpa [idLoop, hdf, hcg, hdt] using this

/-- The iterative-deepening loop changes the caller's state at most in
the memo field. -/
theorem eraseMemo_idLoop (R : Rules) (faults : Nat → Move → Bool) (poolFaults : Nat → Bool)
    (driverFault : Nat → Bool) (choose : List Move → Option Move) (ph : String)
    (td : Nat) (legal : List Move) :
    ∀ (dlist : List Nat) (best : Option Move) (cache : MoveCacheT) (s : GameState),
      eraseMemo (idLoop R faults poolFaults driverFault choose ph td legal dlist best cache s).2.2 =
        eraseMemo s := by
  intro dlist
  induction dlist with
  | nil => intro best cache s; rfl
  | cons d rest ih =>
    intro best cache s
    unfold idLoop
    repeat' (first | split | simp [ih, eraseMemo_minimax, eraseMemo_getAll])
    all_goals simp [ih, eraseMemo_minimax, eraseMemo_getAll]

/-- The search part of the driver changes the caller's state at most in
the memo field. -/
theorem eraseMemo_fbmSearch (R : Rules) (faults : Nat → Move → Bool)
    (poolFaults : Nat → Bool) (driverFault : Nat → Bool) (choose : List Move → Option Move)
    (cache : MoveCacheT) (s : GameState) (depth : Nat) (ph : String) :
    eraseMemo (fbmSearch R faults poolFaults driverFault choose cache s depth ph).2.2 =
      eraseMemo s := by
  unfold fbmSearch
  repeat' (first | split | simp [eraseMemo_idLoop])
  all_goals simp [eraseMemo_idLoop]

/-- `find_best_move` changes the caller's state at most in the memo
field. -/
theorem eraseMemo_find_best_move (R : Rules) (faults : Nat → Move → Bool)
    (poolFaults : Nat → Bool) (driverFault : Nat → Bool) (choose : List Move → Option Move)
    (cache : MoveCacheT) (s : GameState) (depth : Nat) :
    eraseMemo (find_best_move R faults poolFaults driverFault choose cache s depth).2.2 =
      eraseMemo s := by
  unfold find_best_move
  repeat' (first | split | simp [eraseMemo_fbmSearch, eraseMemo_getAll])
  all_goals simp [eraseMemo_fbmSearch, eraseMemo_getAll]

/-- The alpha-beta core changes its receiver at most in the memo
field. -/
theorem eraseMemo_mab (R : Rules) (d : Nat) (tbl : Tables) (s : GameState)
    (alpha beta : Score) (maximizing : Bool) :
    eraseMemo (minimax_alpha_beta R d tbl s alpha beta maximizing).2.2 = eraseMemo s := by
  cases d with
  | zero =>
    unfold minimax_alpha_beta
    simp [eraseMemo_quiescence]
  | succ d' =>
    unfold minimax_alpha_beta abMain
    repeat' (first | split | simp [eraseMemo_quiescence, eraseMemo_getAll])
    all_goals simp [eraseMemo_quiescence, eraseMemo_getAll]

/-- The driver's search part yields some move whenever the state has a
legal move and the requested depth is at least one. -/
theorem fbmSearch_some (R : Rules) (faults : Nat → Move → Bool) (poolFaults : Nat → Bool)
    (driverFault : Nat → Bool) (choose : List Move → Option Move) (cache : MoveCacheT)
    (s : GameState) (depth : Nat) (ph : String)
    (hchoose : ∀ l : List Move, l ≠ [] → ∃ m ∈ l, choose l = some m)
    (hdepth : 1 ≤ depth) (hleg : legalMovesOf R s ≠ []) :
    ∃ m, (fbmSearch R faults poolFaults driverFault choose cache s depth ph).1 = some m := by
  have hleg' : (getAllLegalMoves R s).1 ≠ [] := hleg
  unfold fbmSearch
  cases hl : (getAllLegalMoves R s).1 with
  | nil => exact absurd hl hleg'
  | cons a t =>
    cases t with
    | nil => exact ⟨a, by simp [hl]⟩
    | cons b t2 =>
      have hrange : List.range' 1 depth ≠ [] := by
        intro hcon
        have := congrArg List.length hcon
        simp [List.length_range'] at this
        omega
      rcases idLoop_some R faults poolFaults driverFault choose ph depth (a :: b :: t2)
          hchoose (by simp) (List.range' 1 depth) none cache s (by rw [show legalMovesOf R s = (getAllLegalMoves R s).1 from rfl, hl]; simp)
          (fun hcon => absurd hcon hrange) with ⟨m, hm⟩
      refine ⟨m, ?_⟩
      simp only [hl]
      simp [hm]

/-- Sorting a hand is insensitive to the dictionary's insertion order:
a permuted association list has the same sorted form. -/
theorem sortHands_eq_of_perm {l1 l2 : List (Char × Nat)} (h : l1.Perm l2) :
    sortHands l1 = sortHands l2 :=
  List.eq_of_perm_of_sorted
    ((List.perm_insertionSort handLe l1).trans (h.trans (List.perm_insertionSort handLe l2).symm))
    (List.sorted_insertionSort handLe l1) (List.sorted_insertionSort handLe l2)

/-- The hex digest always has 64 characters. -/
theorem sha256hex_length (msg : List Nat) : (sha256hex msg).length = 64 := by
  unfold sha256hex
  obtain ⟨a, b, c, d, e, f, g, h⟩ := sha256run msg
  simp [toHex8, String.length]

/-- C1: in the parallel root dispatcher's reconciliation, a collected
root result whose score equals the immediate mate sentinel for the side
to move is selected unconditionally regardless of every other score, and
only in the absence of such a result is the returned pair the extremal
one (maximum for White, minimum for Black) over all collected pairs;
`minimax` itself feeds the reconciliation exactly the per-root-move
worker results. -/
theorem C1_mate_priority (turn : Color) (rs : List (Move × Score)) (R : Rules)
    (faults : Move → Bool) (choose : List Move → Option Move) (s : GameState) (depth : Nat)
    (hne : rs ≠ []) (hleg : legalMovesOf R s ≠ []) :
    ((∃ p ∈ rs, p.2 = matingScoreFor turn) →
      (minimaxSelect turn rs).2 = matingScoreFor turn ∧
      ∃ p ∈ rs, p.2 = matingScoreFor turn ∧ (minimaxSelect turn rs).1 = some p.1) ∧
    ((∀ p ∈ rs, p.2 ≠ matingScoreFor turn) →
      minimaxSelect turn rs = (if turn = .w then selectMax rs else selectMin rs) ∧
      (∃ p ∈ rs, (if turn = .w then selectMax rs else selectMin rs) = (some p.1, p.2)) ∧
      (∀ p ∈ rs,
        (turn = .w → Score.le p.2 (selectMax rs).2 = true) ∧
        (turn = .b → Score.le (selectMin rs).2 p.2 = true))) ∧
    (minimax R faults false choose s depth =
      (minimaxSelect (getAllLegalMoves R s).2.current_turn
        ((getAllLegalMoves R s).1.map (fun m =>
          _minimax_worker R (faults m) m (getAllLegalMoves R s).2 depth .ninf .pinf
            (decide ((getAllLegalMoves R s).2.current_turn = Color.w)))),
       (getAllLegalMoves R s).2)) := by
  refine ⟨?_, ?_, ?_⟩
  · rintro ⟨p, hp, hps⟩
    have hsome : (rs.find? (fun q => q.2 = matingScoreFor turn)).isSome := by
      rw [List.find?_isSome]
      exact ⟨p, hp, by simp [hps]⟩
    rcases Option.isSome_iff_exists.mp hsome with ⟨q, hq⟩
    have hqmem := List.mem_of_find?_eq_some hq
    have hqmate : q.2 = matingScoreFor turn := by
      have := List.find?_some hq
      simpa using this
    constructor
    · simp [minimaxSelect, hq]
    · exact ⟨q, hqmem, hqmate, by simp [minimaxSelect, hq]⟩
  · intro hno
    have hfind : rs.find? (fun q => q.2 = matingScoreFor turn) = none := by
      rw [List.find?_eq_none]
      intro x hx
      simp [hno x hx]
    refine ⟨by simp [minimaxSelect, hfind], ?_, ?_⟩
    · by_cases hw : turn = .w
      · rcases (selectMax_spec rs hne).1 with ⟨p, hp, hps⟩
        exact ⟨p, hp, by simp [hw, hps]⟩
      · rcases (selectMin_spec rs hne).1 with ⟨p, hp, hps⟩
        exact ⟨p, hp, by simp [hw, hps]⟩
    · intro p hp
      exact ⟨fun _ => (selectMax_spec rs hne).2 p hp, fun _ => (selectMin_spec rs hne).2 p hp⟩
  · have h1 : (getAllLegalMoves R s).1 ≠ [] := hleg
    have h2 : ((getAllLegalMoves R s).1.map (fun m =>
        _minimax_worker R (faults m) m (getAllLegalMoves R s).2 depth .ninf .pinf
          (decide ((getAllLegalMoves R s).2.current_turn = Color.w)))) ≠ [] := by
      simpa using h1
    simp [minimax, List.isEmpty_iff, h1, h2]

/-- Witness for C1: with White to move, a forced-mate result of exactly
the sentinel is selected over a larger heuristic score. -/
theorem C1_witness :
    (minimaxSelect .w rsMate).2 = matingScoreFor .w ∧
    ∃ p ∈ rsMate, p.2 = matingScoreFor .w ∧ (minimaxSelect .w rsMate).1 = some p.1 :=
  (C1_mate_priority .w rsMate R0 (fun _ => false) choose0 gs0 1 (by decide) (by decide)).1
    (by decide)

/-- C3 counterexample: a stalemate with White to move in which the side
without the move (Black) has no material lead at all, yet the evaluation
is not the draw-equivalent 0 the claim requires (the code instead
penalises the leading side to move). -/
theorem C3_counterexample :
    sStale.stalemate = true ∧ sStale.checkmate = false ∧
    stalemateMaterial sStale .b - stalemateMaterial sStale .w ≤ 100 ∧
    evaluate_position sStale ≠ Score.num 0 :=
  ⟨rfl, rfl, by decide, by decide⟩

/-- C3 as amended: for a stalemate state, if the side TO MOVE has a
material lead (board plus hand) exceeding the threshold 100, the
evaluation is the loss-leaning constant against the side to move
(`-10000` for White to move, `10000` for Black to move); otherwise it is
0. -/
theorem C3_amended (s : GameState) (hst : s.stalemate = true) (hcm : s.checkmate = false) :
    ((match s.current_turn with | .w => material_diff s | .b => -material_diff s) > 100 →
      evaluate_position s =
        (match s.current_turn with | .w => Score.num (-10000) | .b => Score.num 10000)) ∧
    ((match s.current_turn with | .w => material_diff s | .b => -material_diff s) ≤ 100 →
      evaluate_position s = Score.num 0) := by
  cases ht : s.current_turn with
  | w =>
    constructor
    · intro h
      simp only [ht] at h ⊢
      simp [evaluate_position, hst, hcm, ht, h]
    · intro h
      simp only [ht] at h ⊢
      have h1 : ¬(material_diff s > 100) := by omega
      simp [evaluate_position, hst, hcm, ht, h1]
  | b =>
    constructor
    · intro h
      simp only [ht] at h ⊢
      have h1 : material_diff s < -100 := by omega
      have h2 : ¬(material_diff s > 100) := by omega
      simp [evaluate_position, hst, hcm, ht, h1, h2]
    · intro h
      simp only [ht] at h ⊢
      have h1 : ¬(material_diff s < -100) := by omega
      simp [evaluate_position, hst, hcm, ht, h1]

/-- Witness for the amended C3: the queen-up stalemate with White to
move evaluates to the loss-leaning constant against White. -/
theorem C3_witness : evaluate_position sStale = Score.num (-10000) := by
  have := (C3_amended sStale rfl rfl).1 (by decide)
  simpa using this

/-- C4: the code keeps searching on an unhashable state and the hash
function returns the sentinel instead of raising; but the sentinel is
then used as an ordinary cache key, so the transposition table and the
move cache are read and written under `"error_hash"` rather than
bypassed: an entry stored for one unhashable state is served back for
any other. -/
theorem C4_sentinel_key_used :
    get_position_hash none = "error_hash" ∧
    (∀ (tbl : Tables) (e : TTEntry),
      ttGet { tbl with tt := (get_position_hash none, e) :: tbl.tt } (get_position_hash none) =
        some e) ∧
    (∀ (c : MoveCacheT) (d : Nat) (v : Option Move),
      cacheGet (cacheSet c (get_position_hash none, d) v) (get_position_hash none, d) = some v) := by
  refine ⟨rfl, ?_, ?_⟩ <;> intros <;> simp [ttGet, cacheGet, cacheSet, List.lookup]

/-- C7: the position hash is a pure function of board, sorted hands,
turn, en-passant target and castling rights: field-wise identical
states, with the hand dictionaries in any insertion order and all other
fields arbitrary, hash identically, and the digest has 64 hex characters
(256 bits). -/
theorem C7_hash_deterministic (s1 s2 : GameState)
    (hb : s1.board = s2.board)
    (ht : s1.current_turn = s2.current_turn)
    (hep : s1.en_passant_target = s2.en_passant_target)
    (hc1 : s1.can_castle_white_kingside = s2.can_castle_white_kingside)
    (hc2 : s1.can_castle_white_queenside = s2.can_castle_white_queenside)
    (hc3 : s1.can_castle_black_kingside = s2.can_castle_black_kingside)
    (hc4 : s1.can_castle_black_queenside = s2.can_castle_black_queenside)
    (hw : s1.handsW.Perm s2.handsW) (hbk : s1.handsB.Perm s2.handsB) :
    get_position_hash (some s1) = get_position_hash (some s2) ∧
    (get_position_hash (some s1)).length = 64 := by
  constructor
  · show sha256hex (strBytes (stateString s1)) = sha256hex (strBytes (stateString s2))
    congr 1
    unfold strBytes
    congr 1
    unfold stateString boardStr handStr epStr boolStr
    rw [hb, ht, hep, hc1, hc2, hc3, hc4, sortHands_eq_of_perm hw, sortHands_eq_of_perm hbk]
  · exact sha256hex_length _

/-- Witness for C7: two states equal on the hashed fields, with the
white hand listed in opposite orders and every unhashed field different,
hash identically to a 64-character digest. -/
theorem C7_witness :
    get_position_hash (some s71) = get_position_hash (some s72) ∧
    (get_position_hash (some s71)).length = 64 :=
  C7_hash_deterministic s71 s72 rfl rfl rfl rfl rfl rfl rfl (by decide) (by decide)

/-- The killer list stored at a depth is read back at that depth. -/
theorem killersGet_cons_self (tt : List (String × TTEntry)) (ks : List (Nat × List Move))
    (hist : List (Move × Int)) (d : Nat) (l : List Move) :
    killersGet ⟨tt, (d, l) :: ks, hist⟩ d = l := by
  simp [killersGet, List.lookup]

/-- A killer list stored at another depth is invisible. -/
theorem killersGet_cons_ne (tt : List (String × TTEntry)) (ks : List (Nat × List Move))
    (hist : List (Move × Int)) (d dep : Nat) (l : List Move) (h : dep ≠ d) :
    killersGet ⟨tt, (d, l) :: ks, hist⟩ dep = killersGet ⟨tt, ks, hist⟩ dep := by
  simp only [killersGet, List.lookup]
  have hb : (dep == d) = false := by simp [h]
  simp [hb]

/-- C9: on a beta cutoff at depth `d` with cutoff move `m`, the recorded
bookkeeping adds exactly `d*d` to `m`'s history entry and pushes `m`
onto the front of depth `d`'s killer list only if absent, keeping every
killer list at two entries at most (oldest evicted); the cutoff step of
the maximizing loop records exactly the cutoff move at exactly the
node's depth; and the ordering pass only permutes the legal moves, so
killers and history never add or remove candidate moves. -/
theorem C9_killer_history (tbl : Tables) (d : Nat) (m : Move) :
    (historyGet (record_cutoff tbl d m).history m =
      historyGet tbl.history m + (d : Int) * (d : Int)) ∧
    ((killersGet tbl d).length ≤ 2 → m ∉ killersGet tbl d →
      killersGet (record_cutoff tbl d m) d = (m :: killersGet tbl d).take 2) ∧
    (m ∈ killersGet tbl d → (record_cutoff tbl d m).killers = tbl.killers) ∧
    (∀ dep, (killersGet tbl dep).length ≤ 2 →
      (killersGet (record_cutoff tbl d m) dep).length ≤ 2) ∧
    (∀ (recur : Tables → GameState → Score → Score → (Score × Option Move) × Tables × GameState)
       (R : Rules) (sBase : GameState) (beta : Score) (tbl0 : Tables) (alpha : Score)
       (rest : List Move) (s1 s2 : GameState),
       R.makeMove sBase m = (true, s1) →
       autoPromoteW R s1 = some s2 →
       Score.lt Score.ninf (recur tbl0 s2 alpha beta).1.1 = true →
       Score.le beta (Score.smax alpha (recur tbl0 s2 alpha beta).1.1) = true →
       abLoopMax recur R sBase d beta tbl0 alpha Score.ninf none (m :: rest) =
         ((recur tbl0 s2 alpha beta).1.1, some m,
          record_cutoff (recur tbl0 s2 alpha beta).2.1 d m)) ∧
    (∀ (gs : GameState) (tt_best : Option Move) (legal : List Move),
       (orderedMoves tbl gs d tt_best legal).Perm legal) := by
  have hsame : killersGet { tbl with
      history := (m, historyGet tbl.history m + (d : Int) * (d : Int)) :: tbl.history } d =
      killersGet tbl d := rfl
  refine ⟨?_, ?_, ?_, ?_, ?_, ?_⟩
  · simp only [record_cutoff]
    split <;> simp [historyGet, List.lookup]
  · intro hlen hnotin
    simp only [record_cutoff, hsame]
    rw [if_neg hnotin]
    rw [killersGet_cons_self]
    by_cases hgt : (m :: killersGet tbl d).length > 2
    · have h3 : (killersGet tbl d).length = 2 := by
        simp at hgt
        omega
      rw [if_pos hgt, List.dropLast_eq_take]
      simp [h3]
    · rw [if_neg hgt]
      have hle : (m :: killersGet tbl d).length ≤ 2 := by omega
      exact (List.take_of_length_le hle).symm
  · intro hmem
    simp only [record_cutoff, hsame]
    rw [if_pos hmem]
  · intro dep hdep
    simp only [record_cutoff, hsame]
    by_cases hmem : m ∈ killersGet tbl d
    · rw [if_pos hmem]
      exact hdep
    · rw [if_neg hmem]
      by_cases hd : dep = d
      · subst hd
        rw [killersGet_cons_self]
        by_cases hgt : (m :: killersGet tbl dep).length > 2
        · rw [if_pos hgt]
          simp [List.length_dropLast]
          omega
        · rw [if_neg hgt]
          simp at hgt ⊢
          omega
      · rw [killersGet_cons_ne _ _ _ _ _ _ hd]
        exact hdep
  · intro recur R sBase beta tbl0 alpha rest s1 s2 hmk hpr hlt hcut
    simp [abLoopMax, hmk, hpr, hlt, hcut]
  · intro gs tt_best legal
    exact List.perm_insertionSort _ legal

/-- Witness for C9: inserting a fresh cutoff move in front of a full
killer list keeps the two most recent entries. -/
theorem C9_witness :
    killersGet (record_cutoff tblK 3 mv0) 3 = (mv0 :: killersGet tblK 3).take 2 :=
  (C9_killer_history tblK 3 mv0).2.1 (by decide) (by decide)

/-- C10: the move-ordering score is a total function on generator-shaped
moves and the defensive branches score 0: a normal move from an empty
source square, a drop whose piece code is not exactly two characters,
and a value of any other shape. -/
theorem C10_mvv_defensive (hist : List (Move × Int)) (gs : GameState) :
    (∀ (st tgt : Nat × Nat) (promo : Option Char),
      boardGet gs.board st.1 st.2 = EMPTY_SQUARE →
      mvv_lva_score hist gs (.normal st tgt promo) = 0) ∧
    (∀ (pc : String) (tgt : Nat × Nat), pc.length ≠ 2 →
      mvv_lva_score hist gs (.drop pc tgt) = 0) ∧
    (mvv_lva_score hist gs .other = 0) := by
  refine ⟨?_, ?_, rfl⟩
  · rintro ⟨r, c⟩ ⟨er, ec⟩ promo h
    simp [mvv_lva_score, h]
  · rintro pc ⟨dr, dc⟩ h
    have hlen : pc.data.length ≠ 2 := h
    rcases hl : pc.data with _ | ⟨c0, _ | ⟨c1, _ | ⟨c2, t⟩⟩⟩ <;>
      simp only [mvv_lva_score, String.toList, hl] <;> try rfl
    rw [hl] at hlen
    simp at hlen

/-- C2: at a non-terminal node with positive depth and at least one
legal move, a TT entry stored at depth at least the requested depth is
honoured: an `EXACT` entry's score and best move are returned
immediately with no child expanded and no table changed; a `LOWERBOUND`
entry raises alpha to at least its score and an `UPPERBOUND` entry
lowers beta to at most its score, returning the entry immediately
exactly when the tightened window alone closes; an entry stored at a
smaller depth never causes an early return. -/
theorem C2_tt_probe (R : Rules) (tbl : Tables) (s : GameState) (d : Nat)
    (alpha beta : Score) (maximizing : Bool) (e : TTEntry)
    (hcm : s.checkmate = false) (hst : s.stalemate = false)
    (hleg : legalMovesOf R s ≠ [])
    (hent : ttGet tbl (hashOk s) = some e) :
    (e.depth ≥ d + 1 → e.flag = .EXACT →
      minimax_alpha_beta R (d + 1) tbl s alpha beta maximizing =
        ((e.score, e.best_move), tbl, (getAllLegalMoves R s).2)) ∧
    (e.depth ≥ d + 1 → e.flag = .LOWERBOUND →
      (Score.le beta (Score.smax alpha e.score) = true →
        minimax_alpha_beta R (d + 1) tbl s alpha beta maximizing =
          ((e.score, e.best_move), tbl, (getAllLegalMoves R s).2)) ∧
      (Score.le beta (Score.smax alpha e.score) = false →
        minimax_alpha_beta R (d + 1) tbl s alpha beta maximizing =
          abMain (fun t s2 a2 b2 mx => minimax_alpha_beta R d t s2 a2 b2 mx) R tbl
            (getAllLegalMoves R s).2 (hashOk s) (d + 1) (Score.smax alpha e.score) beta
            maximizing (getAllLegalMoves R s).1 (some e))) ∧
    (e.depth ≥ d + 1 → e.flag = .UPPERBOUND →
      (Score.le (Score.smin beta e.score) alpha = true →
        minimax_alpha_beta R (d + 1) tbl s alpha beta maximizing =
          ((e.score, e.best_move), tbl, (getAllLegalMoves R s).2)) ∧
      (Score.le (Score.smin beta e.score) alpha = false →
        minimax_alpha_beta R (d + 1) tbl s alpha beta maximizing =
          abMain (fun t s2 a2 b2 mx => minimax_alpha_beta R d t s2 a2 b2 mx) R tbl
            (getAllLegalMoves R s).2 (hashOk s) (d + 1) alpha (Score.smin beta e.score)
            maximizing (getAllLegalMoves R s).1 (some e))) ∧
    (e.depth < d + 1 →
      minimax_alpha_beta R (d + 1) tbl s alpha beta maximizing =
        abMain (fun t s2 a2 b2 mx => minimax_alpha_beta R d t s2 a2 b2 mx) R tbl
          (getAllLegalMoves R s).2 (hashOk s) (d + 1) alpha beta
          maximizing (getAllLegalMoves R s).1 (some e)) := by
  have hleg' : (getAllLegalMoves R s).1 ≠ [] := hleg
  have hterm : (s.checkmate || s.stalemate) = false := by simp [hcm, hst]
  refine ⟨?_, ?_, ?_, ?_⟩
  · intro hd hf
    simp [minimax_alpha_beta, hterm, List.isEmpty_iff, hleg', hent, abProbe, hd, hf]
  · intro hd hf
    constructor
    · intro hwin
      simp [minimax_alpha_beta, hterm, List.isEmpty_iff, hleg', hent, abProbe, hd, hf, hwin]
    · intro hwin
      simp [minimax_alpha_beta, hterm, List.isEmpty_iff, hleg', hent, abProbe, hd, hf, hwin]
  · intro hd hf
    constructor
    · intro hwin
      simp [minimax_alpha_beta, hterm, List.isEmpty_iff, hleg', hent, abProbe, hd, hf, hwin]
    · intro hwin
      simp [minimax_alpha_beta, hterm, List.isEmpty_iff, hleg', hent, abProbe, hd, hf, hwin]
  · intro hd
    have hd' : ¬(e.depth ≥ d + 1) := by omega
    simp [minimax_alpha_beta, hterm, List.isEmpty_iff, hleg', hent, abProbe, hd']

/-- Witness for C2: a stored exact entry of depth 5 answers a depth-4
query immediately with its score and move, leaving the tables as they
were. -/
theorem C2_witness :
    minimax_alpha_beta R0 4 tblEx sAB .ninf .pinf true =
      ((Score.num 7, some mv2), tblEx, (getAllLegalMoves R0 sAB).2) :=
  (C2_tt_probe R0 tblEx sAB 3 .ninf .pinf true eEx rfl rfl (by decide)
    (by simp [ttGet, tblEx, List.lookup])).1 (by decide) rfl

/-- C6: quiescence search terminates structurally: a zero budget returns
the stand-pat evaluation without recursing, a positive budget makes
every recursive call at budget exactly one less (through the step
functional), and both entry points hand quiescence the fixed constant
`MAX_QUIESCENCE_DEPTH = 4`, so the quiescence recursion depth is bounded
by 4 even when noisy moves exist at every level. -/
theorem C6_quiescence_budget (R : Rules) (hist : List (Move × Int)) (tbl : Tables)
    (s : GameState) (alpha beta : Score) (maximizing : Bool) :
    (quiescence_search R hist 0 s alpha beta = (evaluate_position s, s)) ∧
    (∀ d : Nat, quiescence_search R hist (d + 1) s alpha beta =
      if (s.checkmate || s.stalemate) = true then (evaluate_position s, s)
      else quiescence_step (fun s2 a b => (quiescence_search R hist d s2 a b).1)
        R hist s alpha beta (evaluate_position s)) ∧
    (legalMovesOf R s ≠ [] →
      _quiescence_search R 0 s alpha beta maximizing =
        (evaluate_position s, (getAllLegalMoves R s).2)) ∧
    (∀ d : Nat, legalMovesOf R s ≠ [] →
      _quiescence_search R (d + 1) s alpha beta maximizing =
        uq_step (fun s2 a b => (_quiescence_search R d s2 a b (!maximizing)).1)
          R (getAllLegalMoves R s).2 alpha beta (evaluate_position s) maximizing) ∧
    (MAX_QUIESCENCE_DEPTH = 4) ∧
    (minimax_alpha_beta R 0 tbl s alpha beta maximizing =
      (((quiescence_search R tbl.history MAX_QUIESCENCE_DEPTH s alpha beta).1, none), tbl,
       (quiescence_search R tbl.history MAX_QUIESCENCE_DEPTH s alpha beta).2)) ∧
    (legalMovesOf R s ≠ [] →
      _minimax_recursive R 0 s alpha beta maximizing =
        _quiescence_search R MAX_QUIESCENCE_DEPTH (getAllLegalMoves R s).2 alpha beta
          maximizing) := by
  refine ⟨?_, ?_, ?_, ?_, rfl, rfl, ?_⟩
  · unfold quiescence_search
    split <;> rfl
  · intro d
    rfl
  · intro hleg
    have hleg' : (getAllLegalMoves R s).1 ≠ [] := hleg
    unfold _quiescence_search
    simp [List.isEmpty_iff, hleg']
  · intro d hleg
    have hleg' : (getAllLegalMoves R s).1 ≠ [] := hleg
    conv_lhs => rw [_quiescence_search]
    simp [List.isEmpty_iff, hleg']
  · intro hleg
    have hleg' : (getAllLegalMoves R s).1 ≠ [] := hleg
    conv_lhs => rw [_minimax_recursive]
    simp [List.isEmpty_iff, hleg']

/-- Witness for C6: at budget zero on a state with legal moves the
worker-side quiescence returns the static evaluation at once. -/
theorem C6_witness :
    _quiescence_search R0 0 gs0 .ninf .pinf true =
      (evaluate_position gs0, (getAllLegalMoves R0 gs0).2) :=
  (C6_quiescence_budget R0 [] ⟨[], [], []⟩ gs0 .ninf .pinf true).2.2.1 (by decide)

/-- C5: with at least one legal move and a positive target depth the
driver always returns some move: a faulting root worker is replaced by
the sentinel worst score inside the worker, a faulting dispatch falls
back to the chosen (random) legal move with score 0, and `None` is
returned exactly for a promotion-pending state or a state without legal
moves. -/
theorem C5_driver_total (R : Rules) (faults : Nat → Move → Bool) (poolFaults : Nat → Bool)
    (driverFault : Nat → Bool) (choose : List Move → Option Move) (cache : MoveCacheT)
    (s : GameState) (depth : Nat)
    (hchoose : ∀ l : List Move, l ≠ [] → ∃ m ∈ l, choose l = some m)
    (hdepth : 1 ≤ depth) :
    (s.needs_promotion_choice = false → legalMovesOf R s ≠ [] →
      ∃ m, (find_best_move R faults poolFaults driverFault choose cache s depth).1 = some m) ∧
    (s.needs_promotion_choice = true →
      (find_best_move R faults poolFaults driverFault choose cache s depth).1 = none) ∧
    (s.needs_promotion_choice = false → legalMovesOf R s = [] →
      (find_best_move R faults poolFaults driverFault choose cache s depth).1 = none) ∧
    (∀ (m : Move) (sClone : GameState) (d : Nat) (a b : Score) (mx : Bool),
      _minimax_worker R true m sClone d a b mx = (m, errScore mx)) ∧
    (∀ (faults2 : Move → Bool) (s2 : GameState) (d : Nat), legalMovesOf R s2 ≠ [] →
      ∃ m ∈ legalMovesOf R s2,
        minimax R faults2 true choose s2 d = ((some m, .num 0), (getAllLegalMoves R s2).2)) := by
  refine ⟨?_, ?_, ?_, ?_, ?_⟩
  · intro hpr hleg
    unfold find_best_move
    simp only [hpr, Bool.false_eq_true, if_false]
    rcases hcg : cacheGet cache (hashOk s, depth) with _ | cv
    · simpa [hcg] using
        fbmSearch_some R faults poolFaults driverFault choose cache s depth (hashOk s)
          hchoose hdepth hleg
    · rcases cv with _ | cm
      · simpa [hcg] using
          fbmSearch_some R faults poolFaults driverFault choose
            (cacheDel cache (hashOk s, depth)) s depth (hashOk s) hchoose hdepth hleg
      · by_cases hmem : cm ∈ (getAllLegalMoves R s).1
        · exact ⟨cm, by simp [hcg, hmem]⟩
        · have hleg2 : legalMovesOf R (getAllLegalMoves R s).2 ≠ [] := by
            rw [legalMovesOf_getAll]; exact hleg
          simpa [hcg, hmem] using
            fbmSearch_some R faults poolFaults driverFault choose cache
              (getAllLegalMoves R s).2 depth (hashOk s) hchoose hdepth hleg2
  · intro hpr
    simp [find_best_move, hpr]
  · intro hpr hleg
    have h0 : (getAllLegalMoves R s).1 = [] := hleg
    have hsub : ∀ (cache2 : MoveCacheT) (s2 : GameState), (getAllLegalMoves R s2).1 = [] →
        (fbmSearch R faults poolFaults driverFault choose cache2 s2 depth (hashOk s)).1 = none := by
      intro cache2 s2 h2
      unfold fbmSearch
      simp [h2]
    unfold find_best_move
    simp only [hpr, Bool.false_eq_true, if_false]
    rcases hcg : cacheGet cache (hashOk s, depth) with _ | cv
    · simp [hcg, hsub cache s h0]
    · rcases cv with _ | cm
      · simp [hcg, hsub (cacheDel cache (hashOk s, depth)) s h0]
      · have hmem : cm ∉ (getAllLegalMoves R s).1 := by simp [h0]
        have h02 : (getAllLegalMoves R (getAllLegalMoves R s).2).1 = [] := by
          rw [show (getAllLegalMoves R (getAllLegalMoves R s).2).1 =
            legalMovesOf R (getAllLegalMoves R s).2 from rfl, legalMovesOf_getAll]
          exact hleg
        simp [hcg, hmem, hsub cache (getAllLegalMoves R s).2 h02]
  · intro m sClone d a b mx
    simp [_minimax_worker]
  · intro faults2 s2 d hleg2
    have h2 : (getAllLegalMoves R s2).1 ≠ [] := hleg2
    cases hl : (getAllLegalMoves R s2).1 with
    | nil => exact absurd hl h2
    | cons a t =>
      rcases hchoose (a :: t) (by simp) with ⟨m, hm, hc⟩
      refine ⟨m, by rw [show legalMovesOf R s2 = (getAllLegalMoves R s2).1 from rfl, hl]; exact hm, ?_⟩
      simp [minimax, hl, hc]

/-- Witness for C5: the driver on a two-move position at depth 1 returns
some move. -/
theorem C5_witness :
    ∃ m, (find_best_move R0 (fun _ _ => false) (fun _ => false) (fun _ => false)
      choose0 [] gs0 1).1 = some m :=
  (C5_driver_total R0 (fun _ _ => false) (fun _ => false) (fun _ => false) choose0 [] gs0 1
    (fun l hl => match l, hl with
      | [], h => absurd rfl h
      | a :: t, _ => ⟨a, List.mem_cons_self a t, rfl⟩)
    (by decide)).1 rfl (by decide)

/-- C8 counterexample: calling the driver on a caller state whose
legal-move memo is unset returns with that field of the caller's object
populated (here via the cache-hit validation, which queries the caller's
legal moves), so the caller's state object is not unchanged on return. -/
theorem C8_counterexample :
    (find_best_move R0 (fun _ _ => false) (fun _ => false) (fun _ => false)
        choose0 cacheHit gs0 1).2.2.legalCache = some [mv0, mv1] ∧
    gs0.legalCache = none ∧
    (find_best_move R0 (fun _ _ => false) (fun _ => false) (fun _ => false)
        choose0 cacheHit gs0 1).2.2 ≠ gs0 := by
  have hcg : cacheGet cacheHit (hashOk gs0, 1) = some (some mv0) := by
    simp [cacheGet, cacheHit, List.lookup]
  have hmem : mv0 ∈ (getAllLegalMoves R0 gs0).1 := by decide
  have hrun : find_best_move R0 (fun _ _ => false) (fun _ => false) (fun _ => false)
      choose0 cacheHit gs0 1 = (some mv0, cacheHit, (getAllLegalMoves R0 gs0).2) := by
    have hpromo : gs0.needs_promotion_choice = false := rfl
    unfold find_best_move
    simp [hpromo, hcg, hmem]
  rw [hrun]
  refine ⟨by decide, rfl, by decide⟩

/-- C8 as amended: every semantically observable field of the caller's
state (board, hands, turn, flags, king positions, promotion state,
en-passant and castling rights) is unchanged across `find_best_move`,
`minimax` and `minimax_alpha_beta`, because every move application runs
on a clone; the only caller-object write is the derived legal-move memo
`_all_legal_moves_cache` populated by read-only legal-move queries. -/
theorem C8_amended :
    (∀ (R : Rules) (faults : Nat → Move → Bool) (poolFaults driverFault : Nat → Bool)
       (choose : List Move → Option Move) (cache : MoveCacheT) (s : GameState) (depth : Nat),
      eraseMemo (find_best_move R faults poolFaults driverFault choose cache s depth).2.2 =
        eraseMemo s) ∧
    (∀ (R : Rules) (faults : Move → Bool) (poolFault : Bool)
       (choose : List Move → Option Move) (s : GameState) (depth : Nat),
      eraseMemo (minimax R faults poolFault choose s depth).2 = eraseMemo s) ∧
    (∀ (R : Rules) (d : Nat) (tbl : Tables) (s : GameState) (alpha beta : Score)
       (maximizing : Bool),
      eraseMemo (minimax_alpha_beta R d tbl s alpha beta maximizing).2.2 = eraseMemo s) :=
  ⟨eraseMemo_find_best_move, eraseMemo_minimax, eraseMemo_mab⟩

/-- Witness for C10: the three defensive cases at concrete inputs — an
empty source square, a three-character drop code, and an alien value —
each score 0. -/
theorem C10_witness :
    mvv_lva_score [] gs0 (.normal (0, 0) (1, 1) none) = 0 ∧
    mvv_lva_score [] gs0 (.drop "wNX" (2, 2)) = 0 ∧
    mvv_lva_score [] gs0 .other = 0 :=
  ⟨(C10_mvv_defensive [] gs0).1 (0, 0) (1, 1) none (by decide),
   (C10_mvv_defensive [] gs0).2.1 "wNX" (2, 2) (by decide),
   (C10_mvv_defensive [] gs0).2.2⟩
